import Mathlib

/-!
# Verification of the rust-uno game core

A shallow embedding of the UNO-style game engine from `src/backend/src/gamestate/game.rs`
together with its supporting value types (`Card`, `Deck`, `ActiveCards`, `Player`).
The supporting modules are not part of the provided sources, so they are modelled from
the specification (each such definition is marked `Modelled from the spec:`).
All randomness (deck shuffle, seating shuffle, starting-player pick) is passed in
explicitly: the shuffled deck order and the starting index are arguments, and the
seating shuffle is the identity permutation (every theorem below is invariant under
the actual permutation chosen).
-/

namespace RustUno

/-- Modelled from the spec: card colors (`cards/card.rs` is not in the sources). -/
inductive CardColor where
  | red
  | yellow
  | green
  | blue
  | black
  deriving DecidableEq, Repr, Inhabited

/-- Modelled from the spec: card symbols `Value(0-9) | Skip | Reverse | Draw2 | Draw4 | Wild`. -/
inductive CardSymbol where
  | value (n : Nat)
  | skip
  | reverse
  | draw2
  | draw4
  | wild
  deriving DecidableEq, Repr, Inhabited

/-- Modelled from the spec: a card is a color plus a symbol; equality is structural
(`derive PartialEq` in Rust). -/
structure Card where
  color : CardColor
  symbol : CardSymbol
  deriving DecidableEq, Repr, Inhabited

/-- Modelled from the spec: `Draw4` and `Wild` are the Black-family cards, always dealt
with color Black and recolored only when played. -/
def Card.should_be_black (c : Card) : Bool :=
  c.symbol = CardSymbol.wild || c.symbol = CardSymbol.draw4

/-- Modelled from the spec: morphing produces a recolored copy of a Black card;
morphing a non-black card fails. -/
def Card.morph_black_card (c : Card) (color : CardColor) : Option Card :=
  if c.color = CardColor.black then some { c with color := color } else none

/-- Modelled from the spec: a player owns a name, a hand, the author flag and an
optional finish rank (`gamestate/player.rs` is not in the sources). -/
structure Player where
  name : String
  cards : List Card
  is_author : Bool
  position : Option Nat
  deriving DecidableEq, Repr

/-- Modelled from the spec: a fresh player has an empty hand and no finish rank. -/
def Player.new (name : String) (is_author : Bool) : Player :=
  { name := name, cards := [], is_author := is_author, position := none }

/-- Modelled from the spec: a player is finished exactly when their hand is empty. -/
def Player.is_finished (p : Player) : Bool :=
  p.cards.isEmpty

/-- Modelled from the spec: `give_card` appends a card to the hand. -/
def Player.give_card (p : Player) (c : Card) : Player :=
  { p with cards := p.cards ++ [c] }

def Player.clear_position (p : Player) : Player :=
  { p with position := none }

def Player.drop_all_cards (p : Player) : Player :=
  { p with cards := [] }

/-- Modelled from the spec: the deck is a draw pile and a discard pile; the head of
each list is the top of the pile (`play` pushes onto the head of the discard). -/
structure Deck where
  draw_pile : List Card
  discard_pile : List Card
  deriving DecidableEq, Repr

/-- Modelled from the spec: `Deck::new` builds the full fixed card set in a shuffled
order (passed here as the `cards` argument) and establishes the first top-of-discard
card, so that a top card exists before any legality check runs. -/
def Deck.new (cards : List Card) : Deck :=
  match cards with
  | [] => { draw_pile := [], discard_pile := [] }
  | c :: rest => { draw_pile := rest, discard_pile := [c] }

/-- Modelled from the spec: drawing pops the top of the draw pile; on exhaustion all
discard cards except the top one are moved back into the draw pile first (the shuffle
is modelled as the identity permutation; every property proved below depends only on
the multiset of cards); if both piles are exhausted the draw yields nothing. -/
def Deck.draw (d : Deck) : Option Card × Deck :=
  let d :=
    if d.draw_pile.isEmpty then
      { draw_pile := d.discard_pile.tail, discard_pile := d.discard_pile.take 1 }
    else d
  match d.draw_pile with
  | [] => (none, d)
  | c :: rest => (some c, { d with draw_pile := rest })

/-- Modelled from the spec: playing a card pushes it onto the discard pile, which
becomes the new top card. -/
def Deck.play (d : Deck) (c : Card) : Deck :=
  { d with discard_pile := c :: d.discard_pile }

/-- Modelled from the spec: the top discard card; the Rust accessor panics on an empty
discard pile, modelled with a default card (callers guarantee non-emptiness). -/
def Deck.top_discard_card (d : Deck) : Card :=
  d.discard_pile.head?.getD default

/-- Modelled from the spec: the unresolved forced-response chain, an ordered sequence
of cards all sharing one stackable symbol (`gamestate/active_cards.rs` is not in the
sources). The first pushed card is the head. -/
structure ActiveCards where
  cards : List Card
  deriving DecidableEq, Repr

def ActiveCards.new : ActiveCards := { cards := [] }

def ActiveCards.are_cards_active (ac : ActiveCards) : Bool :=
  !ac.cards.isEmpty

def ActiveCards.active_symbol (ac : ActiveCards) : Option CardSymbol :=
  ac.cards.head?.map Card.symbol

/-- Modelled from the spec: pushing onto an empty stack adopts the card's symbol;
pushing onto a non-empty stack succeeds only when the symbol matches the active one. -/
def ActiveCards.push (ac : ActiveCards) (c : Card) : Option ActiveCards :=
  match ac.cards.head? with
  | none => some { cards := [c] }
  | some top => if c.symbol = top.symbol then some { cards := ac.cards ++ [c] } else none

/-- Modelled from the spec: the summed forced-draw amount (2 per `Draw2`, 4 per
`Draw4`), defined only when the active family is a draw family. -/
def ActiveCards.sum_active_draw_cards (ac : ActiveCards) : Option Nat :=
  match ac.cards.head? with
  | none => none
  | some top =>
    match top.symbol with
    | CardSymbol.draw2 | CardSymbol.draw4 =>
      some ((ac.cards.map (fun c =>
        match c.symbol with
        | CardSymbol.draw2 => 2
        | CardSymbol.draw4 => 4
        | _ => 0)).sum)
    | _ => none

def ActiveCards.clear (_ac : ActiveCards) : ActiveCards := { cards := [] }

inductive GameStatus where
  | lobby
  | running
  | finished
  deriving DecidableEq, Repr

inductive GameStartError where
  | gameAlreadyStarted
  | deckEmptyWhenStartingGame
  deriving DecidableEq, Repr

inductive PlayCardError where
  | noSuchPlayer (name : String)
  | noOneIsPlaying
  | playerOutOfTurn (name : String)
  | cardCannotBePlayed (played : Card) (top : Card)
  | noSuchCard (card : Card)
  deriving DecidableEq, Repr

inductive DrawCardsError where
  | noSuchPlayer (name : String)
  | noOneIsPlaying
  | playerOutOfTurn (name : String)
  | playerCanPlayInstead
  | playerMustPlayInstead (top : Card)
  deriving DecidableEq, Repr

/-- The game state of `game.rs` (the outbound notification channel is not part of the
state; message emission does not alter the fields modelled here except for the status
flip in `play_card_messages`). -/
structure Game where
  id : String
  status : GameStatus
  players : List Player
  deck : Deck
  current_player : Nat
  active_cards : ActiveCards
  is_clockwise : Bool
  deriving DecidableEq, Repr

/-- `CARDS_DEALT_TO_PLAYERS` from `gamestate/mod.rs`. -/
def CARDS_DEALT_TO_PLAYERS : Nat := 7

/-- `CARDS_TOTAL_IN_GAME` from `gamestate/mod.rs`. -/
def CARDS_TOTAL_IN_GAME : Nat := 108

/-- `Game::new` (the random id is passed in explicitly). -/
def Game.new (id : String) (author_name : String) : Game :=
  { id := id
    status := GameStatus.lobby
    players := [Player.new author_name true]
    deck := Deck.new []
    current_player := 0
    active_cards := ActiveCards.new
    is_clockwise := true }

def Game.find_player (g : Game) (name : String) : Option Player :=
  g.players.find? (fun p => p.name = name)

def Game.add_player (g : Game) (name : String) : Game :=
  { g with players := g.players ++ [Player.new name false] }

/-- `get_finished_players` filters the finished players (the Rust code additionally
sorts them by finish rank for display; only length and membership are used by the
game logic modelled here). -/
def Game.get_finished_players (g : Game) : List Player :=
  g.players.filter (fun p => p.is_finished)

def Game.get_current_player (g : Game) : Option Player :=
  g.players.get? g.current_player

/-- The index update performed by `next_turn`: step by plus or minus one, wrapping
modulo the player count (`checked_sub` underflow maps 0 to `len - 1`). -/
def stepIdx (n : Nat) (cw : Bool) (c : Nat) : Nat :=
  (if cw then c + 1 else if c = 0 then n - 1 else c - 1) % n

def Game.next_turn (g : Game) : Game :=
  { g with current_player := stepIdx g.players.length g.is_clockwise g.current_player }

/-- The loop body of `end_turn`: step the turn pointer until a non-finished player is
reached. The Rust `loop` always terminates within `players.length` steps whenever a
non-finished player exists (proved below); the fuel makes it structurally recursive. -/
def Game.endTurnAux : Game → Nat → Game
  | g, 0 => g
  | g, fuel + 1 =>
    let g' := g.next_turn
    match g'.get_current_player with
    | some p => if p.is_finished then Game.endTurnAux g' fuel else g'
    | none => Game.endTurnAux g' fuel

/-- `end_turn`: returns `false` when every player is finished, otherwise advances to
the next non-finished player and returns `true`. -/
def Game.end_turn (g : Game) : Game × Bool :=
  if g.get_finished_players.length = g.players.length then (g, false)
  else (g.endTurnAux g.players.length, true)

def Game.reverse (g : Game) : Game :=
  { g with is_clockwise := !g.is_clockwise }

/-- `can_play_card`: while a chain is active only the symbol is compared against the
active symbol; otherwise a Black card, a color match, or a symbol match is legal. -/
def Game.can_play_card (g : Game) (played_card : Card) : Bool :=
  let top_card := g.deck.top_discard_card
  if g.active_cards.are_cards_active then
    played_card.symbol = (g.active_cards.active_symbol.getD default)
  else
    played_card.color = CardColor.black
      || played_card.color = top_card.color
      || played_card.symbol = top_card.symbol

def Game.does_player_exist (g : Game) (player_name : String) : Except PlayCardError Player :=
  match g.find_player player_name with
  | none => Except.error (PlayCardError.noSuchPlayer player_name)
  | some p => Except.ok p

/-- `is_player_at_turn`: player equality is by name (spec 4.3). -/
def Game.is_player_at_turn (g : Game) (player : Player) : Except PlayCardError Unit :=
  match g.get_current_player with
  | none => Except.error PlayCardError.noOneIsPlaying
  | some current =>
    if player.name = current.name then Except.ok () else
      Except.error (PlayCardError.playerOutOfTurn player.name)

/-- Conversion of the shared existence/turn errors into `DrawCardsError`
(the Rust `From` impls behind the `?` operator). -/
def toDrawErr : PlayCardError → DrawCardsError
  | PlayCardError.noSuchPlayer n => DrawCardsError.noSuchPlayer n
  | PlayCardError.noOneIsPlaying => DrawCardsError.noOneIsPlaying
  | PlayCardError.playerOutOfTurn n => DrawCardsError.playerOutOfTurn n
  | PlayCardError.cardCannotBePlayed _ _ => DrawCardsError.playerCanPlayInstead
  | PlayCardError.noSuchCard _ => DrawCardsError.playerCanPlayInstead

/-- `can_player_draw`: existence, turn, no-playable-card, and no active Skip chain. -/
def Game.can_player_draw (g : Game) (player_name : String) : Except DrawCardsError Unit := do
  match g.does_player_exist player_name with
  | Except.error e => Except.error (toDrawErr e)
  | Except.ok player =>
    match g.is_player_at_turn player with
    | Except.error e => Except.error (toDrawErr e)
    | Except.ok _ =>
      if player.cards.any (fun card => g.can_play_card card) then
        Except.error DrawCardsError.playerCanPlayInstead
      else if g.active_cards.are_cards_active
          && (g.active_cards.active_symbol.getD default) = CardSymbol.skip then
        Except.error (DrawCardsError.playerMustPlayInstead g.deck.top_discard_card)
      else
        Except.ok ()

/-- Replace the element at index `i` (identity when out of range); models in-place
mutation of the single player found by `iter_mut().find(..)`. -/
def modifyAt : List α → Nat → (α → α) → List α
  | [], _, _ => []
  | a :: as, 0, f => f a :: as
  | a :: as, n + 1, f => a :: modifyAt as n f

/-- Index of the first player with the given name (`players.length` when absent). -/
def Game.playerIdx (g : Game) (name : String) : Nat :=
  g.players.findIdx (fun p => p.name = name)

/-- The draw loop of `draw_n_cards`: up to `n` draws, stopping early when the deck is
exhausted; returns the drawn cards in draw order and the final deck. -/
def drawLoop : Deck → Nat → List Card × Deck
  | d, 0 => ([], d)
  | d, n + 1 =>
    match d.draw with
    | (none, d') => ([], d')
    | (some c, d') =>
      let (cs, d'') := drawLoop d' n
      (c :: cs, d'')

/-- `draw_n_cards`: draws up to `n` cards from the deck into the named player's hand. -/
def Game.draw_n_cards (g : Game) (player_name : String) (n : Nat) : Game × List Card :=
  let (cs, d') := drawLoop g.deck n
  ({ g with
      deck := d'
      players := modifyAt g.players (g.playerIdx player_name)
        (fun p => { p with cards := p.cards ++ cs }) },
    cs)

/-- `draw_cards`: validate, compute the draw count (clearing an active chain), draw,
advance the turn. The post-state is returned alongside the result, mirroring `&mut
self`: on a validation error the state is the unchanged input. -/
def Game.draw_cards (g : Game) (player_name : String) :
    Game × Except DrawCardsError (List Card) :=
  match g.can_player_draw player_name with
  | Except.error e => (g, Except.error e)
  | Except.ok _ =>
    let (g, draw_count) :=
      if g.active_cards.are_cards_active then
        ({ g with active_cards := g.active_cards.clear },
          (g.active_cards.sum_active_draw_cards).getD 0)
      else (g, 1)
    let (g, drawn) := g.draw_n_cards player_name draw_count
    let (g, _) := g.end_turn
    (g, Except.ok drawn)

/-- `can_player_play`: existence, turn, and card legality. -/
def Game.can_player_play (g : Game) (player_name : String) (card : Card) :
    Except PlayCardError Unit :=
  match g.does_player_exist player_name with
  | Except.error e => Except.error e
  | Except.ok player =>
    match g.is_player_at_turn player with
    | Except.error e => Except.error e
    | Except.ok _ =>
      if !(g.can_play_card card) then
        Except.error (PlayCardError.cardCannotBePlayed card g.deck.top_discard_card)
      else
        Except.ok ()

/-- The card that ends up on the discard pile: the removed hand card (equal to the
claimed card, since card equality is by color and symbol), morphed when it is a
Black-family card and a replacement color was supplied. -/
def playedCardOf (wanted_card : Card) (maybe_new_color : Option CardColor) : Card :=
  if wanted_card.should_be_black then
    match maybe_new_color with
    | some color => (wanted_card.morph_black_card color).getD wanted_card
    | none => wanted_card
  else wanted_card

/-- `mutate_player`: remove the claimed card from the hand (failing without mutation
when absent), morph a Black-family card when a replacement color was supplied, and
record the finish rank the instant the hand becomes empty. -/
def Game.mutate_player (g : Game) (player_name : String) (wanted_card : Card)
    (maybe_new_color : Option CardColor) (possible_position : Nat) :
    Game × Except PlayCardError (Card × Bool) :=
  let i := g.playerIdx player_name
  match g.players.get? i with
  | none => (g, Except.error (PlayCardError.noSuchPlayer player_name))
  | some p =>
    if wanted_card ∈ p.cards then
      let played := playedCardOf wanted_card maybe_new_color
      let newCards := p.cards.erase wanted_card
      let finished := newCards.isEmpty
      let p' := { p with
        cards := newCards
        position := if finished then some possible_position else p.position }
      ({ g with players := modifyAt g.players i (fun _ => p') },
        Except.ok (played, finished))
    else (g, Except.error (PlayCardError.noSuchCard wanted_card))

/-- `handle_played_card`: effect resolution by symbol. A failing chain push would
panic in Rust (`unwrap`); it is impossible after the legality check and modelled as
leaving the chain unchanged. -/
def Game.handle_played_card (g : Game) (played_card : Card) : Game :=
  match played_card.symbol with
  | CardSymbol.value _ | CardSymbol.wild => { g with active_cards := g.active_cards.clear }
  | CardSymbol.reverse => { g.reverse with active_cards := g.active_cards.clear }
  | CardSymbol.draw2 | CardSymbol.draw4 | CardSymbol.skip =>
    { g with active_cards := (g.active_cards.push played_card).getD g.active_cards }

/-- `play_card_messages`: notifications do not alter the modelled state, except that
the game becomes `Finished` when the turn returned to the player who just played. -/
def Game.play_card_messages (g : Game) (player_name : String) : Game :=
  let new_player_name := (g.get_current_player.map Player.name).getD ""
  if new_player_name = player_name then { g with status := GameStatus.finished } else g

/-- `play_card`: validate, mutate the hand, resolve the effect, discard the played
card, advance the turn, emit notifications. The post-state is returned alongside the
error slot, mirroring `&mut self`. -/
def Game.play_card (g : Game) (player_name : String) (card : Card)
    (maybe_new_color : Option CardColor) : Game × Option PlayCardError :=
  match g.can_player_play player_name card with
  | Except.error e => (g, some e)
  | Except.ok _ =>
    let possible_position := g.get_finished_players.length
    match g.mutate_player player_name card maybe_new_color possible_position with
    | (g', Except.error e) => (g', some e)
    | (g', Except.ok (played_card, _player_finished)) =>
      let g2 := g'.handle_played_card played_card
      let g3 := { g2 with deck := g2.deck.play played_card }
      let g4 := (g3.end_turn).1
      let g5 := g4.play_card_messages player_name
      (g5, none)

/-- The per-player dealing loop inside `deal_starting_cards`: draw `k` cards into the
(already cleared) hand, reporting failure when the deck runs out. -/
def deal7 : Deck → Player → Nat → Deck × Player × Bool
  | d, p, 0 => (d, p, true)
  | d, p, k + 1 =>
    match d.draw with
    | (none, d') => (d', p, false)
    | (some c, d') => deal7 d' (p.give_card c) k

/-- The player loop of `deal_starting_cards`: each player's hand is cleared and dealt
in seating order; on deck exhaustion the loop stops, leaving later players untouched
(faithful to the early `return Err` in the Rust loop). -/
def dealLoop : Deck → List Player → Deck × List Player × Bool
  | d, [] => (d, [], true)
  | d, p :: rest =>
    match deal7 d p.drop_all_cards CARDS_DEALT_TO_PLAYERS with
    | (d', p', true) =>
      let (d'', rest', ok) := dealLoop d' rest
      (d'', p' :: rest', ok)
    | (d', p', false) => (d', p' :: rest, false)

/-- `deal_starting_cards`: installs a brand-new deck and deals every hand. -/
def Game.deal_starting_cards (g : Game) (deckOrder : List Card) :
    Game × Option GameStartError :=
  let (d', players', ok) := dealLoop (Deck.new deckOrder) g.players
  ({ g with deck := d', players := players' },
    if ok then none else some GameStartError.deckEmptyWhenStartingGame)

/-- `start`: reject a running game; otherwise shuffle seating (identity permutation
here), pick the starting player (`startIdx` stands for the random pick; `% len`
keeps it in the range of `gen_range`), clear finish ranks, set the status to
`Running`, and deal from a fresh shuffled deck (`deckOrder`). The status is set
before dealing, exactly as in the source. -/
def Game.start (g : Game) (deckOrder : List Card) (startIdx : Nat) :
    Game × Option GameStartError :=
  if g.status = GameStatus.running then (g, some GameStartError.gameAlreadyStarted)
  else
    let g := { g with current_player := startIdx % g.players.length }
    let g := { g with players := g.players.map Player.clear_position }
    let g := { g with status := GameStatus.running }
    g.deal_starting_cards deckOrder

/-- Modelled from the spec: the fixed full 108-card set (per color one 0, two each of
1-9, two Skip, two Reverse, two Draw2; plus four Wild and four Draw4). -/
def colorCards (c : CardColor) : List Card :=
  ⟨c, CardSymbol.value 0⟩ ::
    ((List.range 9).flatMap (fun n =>
      [⟨c, CardSymbol.value (n + 1)⟩, ⟨c, CardSymbol.value (n + 1)⟩])
    ++ [⟨c, CardSymbol.skip⟩, ⟨c, CardSymbol.skip⟩,
        ⟨c, CardSymbol.reverse⟩, ⟨c, CardSymbol.reverse⟩,
        ⟨c, CardSymbol.draw2⟩, ⟨c, CardSymbol.draw2⟩])

/-- Modelled from the spec: the full card set of the game. -/
def fullCardList : List Card :=
  ([CardColor.red, CardColor.yellow, CardColor.green, CardColor.blue].flatMap colorCards)
    ++ List.replicate 4 ⟨CardColor.black, CardSymbol.wild⟩
    ++ List.replicate 4 ⟨CardColor.black, CardSymbol.draw4⟩

/-! ### Derived notions used by the statements -/

/-- The index reached after `k` applications of the `next_turn` index step. -/
def iterStep (n : Nat) (cw : Bool) (c : Nat) : Nat → Nat
  | 0 => c
  | k + 1 => stepIdx n cw (iterStep n cw c k)

/-- The card-legality rule exactly as the specification words it, to be compared with
the implementation `Game.can_play_card`: while a chain is active, legal iff the
symbol equals the active symbol (color not consulted); with no chain, legal iff the
card is Black, or matches the top discard card by color or by symbol. -/
def specCanPlayCard (g : Game) (c : Card) : Prop :=
  if g.active_cards.cards = [] then
    c.color = CardColor.black ∨ c.color = g.deck.top_discard_card.color
      ∨ c.symbol = g.deck.top_discard_card.symbol
  else
    ∃ s, g.active_cards.active_symbol = some s ∧ c.symbol = s

/-- The multiset of cards held by a deck (both piles). -/
def deckCards (d : Deck) : Multiset Card :=
  (d.draw_pile : Multiset Card) + (d.discard_pile : Multiset Card)

/-- The multiset of all cards in play: draw pile, discard pile and every hand. -/
def gameCards (g : Game) : Multiset Card :=
  (g.deck.draw_pile : Multiset Card) + (g.deck.discard_pile : Multiset Card)
    + (g.players.map (fun p => (p.cards : Multiset Card))).sum

/-- The total number of cards in play. -/
def totalCards (g : Game) : Nat :=
  g.deck.draw_pile.length + g.deck.discard_pile.length
    + (g.players.map (fun p => p.cards.length)).sum

/-- The turn-validity invariant: while the game is Running and at least one player is
unfinished, `current_player` is a valid index and the player there is unfinished. -/
def TurnInv (g : Game) : Prop :=
  g.status = GameStatus.running →
  (∃ p ∈ g.players, p.is_finished = false) →
  ∃ p, g.get_current_player = some p ∧ p.is_finished = false

/-- The finish-rank bookkeeping invariant: the assigned ranks are exactly
`0, 1, …, k-1` where `k` is the number of finished players, and a rank is assigned
to a player exactly when that player is finished. -/
def PosInv (g : Game) : Prop :=
  (↑(g.players.filterMap Player.position) : Multiset Nat)
      = Multiset.range g.get_finished_players.length
    ∧ ∀ p ∈ g.players, p.position.isSome = p.is_finished

/-- The state reached by a successful `play_card` call, written out explicitly:
`p` is the acting player's record before the call (a proof convenience; the lemma
`play_card_ok_full` below shows a successful `play_card` equals this). -/
def Game.afterPlay (g : Game) (n : String) (c : Card) (mc : Option CardColor)
    (p : Player) : Game :=
  let g1 : Game :=
    { g with players := modifyAt g.players (g.playerIdx n) (fun _ =>
        { p with
          cards := p.cards.erase c
          position := if (p.cards.erase c).isEmpty
            then some g.get_finished_players.length else p.position }) }
  let g2 := g1.handle_played_card (playedCardOf c mc)
  let g3 : Game := { g2 with deck := g2.deck.play (playedCardOf c mc) }
  ((g3.end_turn).1).play_card_messages n

/-- The state and cards produced by a successful `draw_cards` call, written out
explicitly (a proof convenience; see `draw_cards_ok_elim`). -/
def Game.afterDraw (g : Game) (n : String) : Game × List Card :=
  let g1 := if g.active_cards.are_cards_active
    then { g with active_cards := g.active_cards.clear } else g
  let k := if g.active_cards.are_cards_active
    then (g.active_cards.sum_active_draw_cards).getD 0 else 1
  let gc := g1.draw_n_cards n k
  (((gc.1.end_turn).1), gc.2)

/-! ### Concrete states used by witnesses and counterexamples -/

/-- A small running two-player game: `A` (current) holds an unplayable hand against
the red 5 on top of the discard pile, the draw pile holds two cards. -/
def W1 : Game :=
  { id := "w1"
    status := GameStatus.running
    players :=
      [ { name := "A", cards := [⟨CardColor.blue, CardSymbol.value 7⟩], is_author := true,
          position := none },
        { name := "B", cards := [⟨CardColor.green, CardSymbol.value 2⟩], is_author := false,
          position := none } ]
    deck := { draw_pile := [⟨CardColor.green, CardSymbol.value 3⟩,
                            ⟨CardColor.yellow, CardSymbol.value 1⟩],
              discard_pile := [⟨CardColor.red, CardSymbol.value 5⟩] }
    current_player := 0
    active_cards := ActiveCards.new
    is_clockwise := true }

/-- Like `W1` but `A` holds a playable red Skip next to the unplayable blue 7. -/
def W2 : Game :=
  { W1 with players :=
      [ { name := "A", cards := [⟨CardColor.blue, CardSymbol.value 7⟩,
                                 ⟨CardColor.red, CardSymbol.skip⟩], is_author := true,
          position := none },
        { name := "B", cards := [⟨CardColor.green, CardSymbol.value 2⟩], is_author := false,
          position := none } ] }

/-- Like `W1` but `A` holds only the playable red 5, so playing it finishes `A`. -/
def W3 : Game :=
  { W1 with players :=
      [ { name := "A", cards := [⟨CardColor.red, CardSymbol.value 5⟩], is_author := true,
          position := none },
        { name := "B", cards := [⟨CardColor.green, CardSymbol.value 2⟩], is_author := false,
          position := none } ] }

/-- A two-player game in which `B` has already finished, so `A` playing their last
card loops the turn back to `A` and ends the game. -/
def W4 : Game :=
  { W1 with players :=
      [ { name := "A", cards := [⟨CardColor.red, CardSymbol.value 5⟩], is_author := true,
          position := none },
        { name := "B", cards := [], is_author := false, position := some 0 } ] }

/-- A running two-player game in which the current player holds a red Reverse and one
further card, used for the two-player Reverse scenario. -/
def G3 : Game :=
  { id := "g3"
    status := GameStatus.running
    players :=
      [ { name := "A", cards := [⟨CardColor.red, CardSymbol.reverse⟩,
                                 ⟨CardColor.blue, CardSymbol.value 7⟩], is_author := true,
          position := none },
        { name := "B", cards := [⟨CardColor.green, CardSymbol.value 2⟩], is_author := false,
          position := none } ]
    deck := { draw_pile := [⟨CardColor.yellow, CardSymbol.value 1⟩],
              discard_pile := [⟨CardColor.red, CardSymbol.value 5⟩] }
    current_player := 0
    active_cards := ActiveCards.new
    is_clockwise := true }

/-- A lobby with seventeen players, more than the deck can deal seven cards each. -/
def G17 : Game :=
  (List.range 16).foldl (fun g i => g.add_player ("P" ++ toString (i + 1)))
    (Game.new "g17" "P0")

/-- A lobby with two players, used for the started-game scenarios. -/
def G2 : Game := (Game.new "g2" "A").add_player "B"

/-- A shuffled order of the full card set that puts a red 0 on top (it becomes the
first discard card) followed by a black Wild (it is dealt to the first player). -/
def myOrder : List Card :=
  ⟨CardColor.red, CardSymbol.value 0⟩ :: ⟨CardColor.black, CardSymbol.wild⟩ ::
    ((fullCardList.erase ⟨CardColor.red, CardSymbol.value 0⟩).erase
      ⟨CardColor.black, CardSymbol.wild⟩)

/-- The two-player game `G2` after a successful start with deck order `myOrder`. -/
def G6 : Game := (G2.start myOrder 0).1

/-! ### C1: the legality rule of `can_play_card` -/

/-- **C1.** For every game and card, `can_play_card` agrees exactly with the
specification rule (`specCanPlayCard`); in particular, with no active chain a
Black-colored card is always legal. -/
theorem can_play_card_matches_spec (g : Game) (c : Card) :
    (g.can_play_card c = true ↔ specCanPlayCard g c) ∧
    (g.active_cards.cards = [] → c.color = CardColor.black → g.can_play_card c = true) := by
  constructor
  · unfold Game.can_play_card specCanPlayCard ActiveCards.are_cards_active
      ActiveCards.active_symbol
    cases hac : g.active_cards.cards with
    | nil => simp [hac, or_assoc]
    | cons a as => simp [hac]
  · intro h hb
    unfold Game.can_play_card ActiveCards.are_cards_active
    rw [h]
    simp [hb]

/-- Witness for C1: in `W1` (no active chain) a black Wild is legal. -/
theorem can_play_card_matches_spec_witness :
    Game.can_play_card W1 ⟨CardColor.black, CardSymbol.wild⟩ = true :=
  (can_play_card_matches_spec W1 ⟨CardColor.black, CardSymbol.wild⟩).2 (by decide) (by decide)

/-! ### Infrastructure lemmas -/

theorem modifyAt_length (l : List α) (i : Nat) (f : α → α) :
    (modifyAt l i f).length = l.length := by
  induction l generalizing i with
  | nil => rfl
  | cons a as ih =>
    cases i with
    | zero => rfl
    | succ n => simp [modifyAt, ih]

theorem get?_modifyAt_self (l : List α) (i : Nat) (f : α → α) :
    (modifyAt l i f).get? i = (l.get? i).map f := by
  induction l generalizing i with
  | nil => rfl
  | cons a as ih =>
    cases i with
    | zero => rfl
    | succ n => simpa [modifyAt] using ih n

theorem get?_modifyAt_ne (l : List α) (i j : Nat) (f : α → α) (h : j ≠ i) :
    (modifyAt l i f).get? j = l.get? j := by
  induction l generalizing i j with
  | nil => rfl
  | cons a as ih =>
    cases i with
    | zero =>
      cases j with
      | zero => exact absurd rfl h
      | succ m => rfl
    | succ n =>
      cases j with
      | zero => rfl
      | succ m => simpa [modifyAt] using ih n m (by omega)

theorem endTurnAux_eq_set (fuel : Nat) :
    ∀ g : Game, ∃ c, g.endTurnAux fuel = { g with current_player := c } := by
  induction fuel with
  | zero => intro g; exact ⟨g.current_player, rfl⟩
  | succ n ih =>
    intro g
    cases hp : (g.next_turn).get_current_player with
    | none =>
      obtain ⟨c, hc⟩ := ih g.next_turn
      refine ⟨c, ?_⟩
      simp only [Game.endTurnAux, hp, hc]
      rfl
    | some p =>
      by_cases hf : p.is_finished
      · obtain ⟨c, hc⟩ := ih g.next_turn
        refine ⟨c, ?_⟩
        simp only [Game.endTurnAux, hp, hf, if_true, hc]
        rfl
      · refine ⟨stepIdx g.players.length g.is_clockwise g.current_player, ?_⟩
        simp only [Game.endTurnAux, hp, if_neg hf]
        rfl

theorem end_turn_eq_set (g : Game) : ∃ c, (g.end_turn).1 = { g with current_player := c } := by
  unfold Game.end_turn
  by_cases h : g.get_finished_players.length = g.players.length
  · exact ⟨g.current_player, by simp [h]⟩
  · obtain ⟨c, hc⟩ := endTurnAux_eq_set g.players.length g
    exact ⟨c, by simp [h, hc]⟩

theorem play_card_messages_eq (g : Game) (n : String) :
    g.play_card_messages n =
      (if (g.get_current_player.map Player.name).getD "" = n
        then { g with status := GameStatus.finished } else g) := rfl

theorem play_card_messages_eq_set (g : Game) (n : String) :
    ∃ s, g.play_card_messages n = { g with status := s } := by
  rw [play_card_messages_eq]
  by_cases h : (g.get_current_player.map Player.name).getD "" = n
  · exact ⟨GameStatus.finished, by simp [h]⟩
  · exact ⟨g.status, by simp [h]⟩

theorem handle_played_card_eq_set (g : Game) (c : Card) :
    ∃ ac cw, g.handle_played_card c =
      { g with active_cards := ac, is_clockwise := cw } := by
  unfold Game.handle_played_card
  cases c.symbol with
  | value n => exact ⟨g.active_cards.clear, g.is_clockwise, rfl⟩
  | wild => exact ⟨g.active_cards.clear, g.is_clockwise, rfl⟩
  | reverse => exact ⟨g.active_cards.clear, !g.is_clockwise, rfl⟩
  | skip => exact ⟨(g.active_cards.push c).getD g.active_cards, g.is_clockwise, rfl⟩
  | draw2 => exact ⟨(g.active_cards.push c).getD g.active_cards, g.is_clockwise, rfl⟩
  | draw4 => exact ⟨(g.active_cards.push c).getD g.active_cards, g.is_clockwise, rfl⟩

theorem stepIdx_lt (n : Nat) (hn : 0 < n) (cw : Bool) (c : Nat) : stepIdx n cw c < n :=
  Nat.mod_lt _ hn

theorem iterStep_lt (n : Nat) (hn : 0 < n) (cw : Bool) (c : Nat) (hc : c < n) :
    ∀ k, iterStep n cw c k < n := by
  intro k
  cases k with
  | zero => exact hc
  | succ m => exact stepIdx_lt n hn cw _

theorem iterStep_shift (n : Nat) (cw : Bool) (c : Nat) :
    ∀ k, iterStep n cw (stepIdx n cw c) k = iterStep n cw c (k + 1) := by
  intro k
  induction k with
  | zero => rfl
  | succ m ih => simp only [iterStep, ih]

theorem iterStep_cw (n c : Nat) : ∀ k, iterStep n true c (k + 1) = (c + k + 1) % n := by
  intro k
  induction k with
  | zero => simp [iterStep, stepIdx]
  | succ m ih =>
    show stepIdx n true (iterStep n true c (m + 1)) = (c + (m + 1) + 1) % n
    rw [ih]
    simp only [stepIdx, if_true]
    rw [Nat.mod_add_mod]
    congr 1

theorem exists_cw_hit (n c t : Nat) (hn : 0 < n) (ht : t < n) :
    ∃ k, 1 ≤ k ∧ k ≤ n ∧ iterStep n true c k = t := by
  have hr : c % n < n := Nat.mod_lt _ hn
  have hdm := Nat.div_add_mod c n
  refine ⟨(t + n - c % n - 1) % n + 1, by omega, by
    have := Nat.mod_lt (t + n - c % n - 1) hn; omega, ?_⟩
  rw [iterStep_cw]
  have h2 : c + (t + n - c % n - 1) % n + 1 = (c + 1) + (t + n - c % n - 1) % n := by
    omega
  rw [h2, Nat.add_mod_mod]
  have h3 : c + 1 + (t + n - c % n - 1) = t + n * (c / n + 1) := by
    rw [Nat.mul_succ]
    omega
  rw [h3, Nat.add_mul_mod_self_left]
  exact Nat.mod_eq_of_lt ht

theorem stepIdx_false (n c : Nat) : stepIdx n false c = (if c = 0 then n - 1 else c - 1) % n :=
  rfl

theorem stepIdx_true (n c : Nat) : stepIdx n true c = (c + 1) % n := rfl

theorem stepIdx_ccw_conj (n c : Nat) (hn : 0 < n) (hc : c < n) :
    stepIdx n false c = n - 1 - stepIdx n true (n - 1 - c) := by
  rw [stepIdx_false, stepIdx_true]
  by_cases h0 : c = 0
  · subst h0
    rw [if_pos rfl]
    have h2 : n - 1 - 0 + 1 = n := by omega
    rw [h2, Nat.mod_self, Nat.mod_eq_of_lt (by omega)]
    omega
  · rw [if_neg h0]
    have h1 : n - 1 - c + 1 = n - c := by omega
    rw [h1, Nat.mod_eq_of_lt (by omega), Nat.mod_eq_of_lt (by omega)]
    omega

theorem iterStep_ccw_conj (n c : Nat) (hn : 0 < n) (hc : c < n) :
    ∀ k, iterStep n false c k = n - 1 - iterStep n true (n - 1 - c) k := by
  intro k
  induction k with
  | zero =>
    show c = n - 1 - (n - 1 - c)
    omega
  | succ m ih =>
    show stepIdx n false (iterStep n false c m) = n - 1 - stepIdx n true (iterStep n true (n - 1 - c) m)
    rw [ih]
    have hy : iterStep n true (n - 1 - c) m < n := iterStep_lt n hn true _ (by omega) m
    rw [stepIdx_ccw_conj n _ hn (by omega)]
    congr 2
    omega

theorem exists_step_hit (n c t : Nat) (cw : Bool) (hn : 0 < n) (hc : c < n) (ht : t < n) :
    ∃ k, 1 ≤ k ∧ k ≤ n ∧ iterStep n cw c k = t := by
  cases cw with
  | true => exact exists_cw_hit n c t hn ht
  | false =>
    obtain ⟨k, hk1, hk2, hk3⟩ := exists_cw_hit n (n - 1 - c) (n - 1 - t) hn (by omega)
    refine ⟨k, hk1, hk2, ?_⟩
    rw [iterStep_ccw_conj n c hn hc, hk3]
    omega

theorem endTurnAux_lands (fuel : Nat) :
    ∀ g : Game, 0 < g.players.length →
    (∃ k, 1 ≤ k ∧ k ≤ fuel ∧
      ∃ p, g.players.get? (iterStep g.players.length g.is_clockwise g.current_player k)
          = some p ∧ p.is_finished = false) →
    ∃ p, (g.endTurnAux fuel).get_current_player = some p ∧ p.is_finished = false := by
  induction fuel with
  | zero =>
    intro g _ ⟨k, hk1, hk2, _⟩
    omega
  | succ fuel ih =>
    intro g hn ⟨k, hk1, hk2, p, hp, hpf⟩
    have hidx : stepIdx g.players.length g.is_clockwise g.current_player < g.players.length :=
      stepIdx_lt _ hn _ _
    obtain ⟨q, hq⟩ : ∃ q, (g.next_turn).get_current_player = some q := by
      unfold Game.next_turn Game.get_current_player
      exact ⟨_, List.get?_eq_get hidx⟩
    by_cases hqf : q.is_finished
    · have hres : g.endTurnAux (fuel + 1) = (g.next_turn).endTurnAux fuel := by
        simp only [Game.endTurnAux, hq, hqf, if_true]
      rw [hres]
      apply ih g.next_turn (by simpa [Game.next_turn] using hn)
      have hne : k ≠ 1 := by
        intro h1
        subst h1
        have : g.players.get? (stepIdx g.players.length g.is_clockwise g.current_player)
            = some p := hp
        have hq' : (g.next_turn).get_current_player
            = g.players.get? (stepIdx g.players.length g.is_clockwise g.current_player) := rfl
        rw [hq', this] at hq
        cases hq
        rw [hqf] at hpf
        cases hpf
      refine ⟨k - 1, by omega, by omega, p, ?_, hpf⟩
      have hsh := iterStep_shift g.players.length g.is_clockwise g.current_player (k - 1)
      have hk' : k - 1 + 1 = k := by omega
      rw [hk'] at hsh
      show (g.next_turn).players.get?
        (iterStep (g.next_turn).players.length (g.next_turn).is_clockwise
          (g.next_turn).current_player (k - 1)) = some p
      have h1 : (g.next_turn).players = g.players := rfl
      have h2 : (g.next_turn).is_clockwise = g.is_clockwise := rfl
      have h3 : (g.next_turn).current_player
          = stepIdx g.players.length g.is_clockwise g.current_player := rfl
      rw [h1, h2, h3, hsh]
      exact hp
    · refine ⟨q, ?_, by simpa using hqf⟩
      simp only [Game.endTurnAux, hq, if_neg hqf]

theorem end_turn_lands (g : Game) (hc : g.current_player < g.players.length)
    (hx : ∃ p ∈ g.players, p.is_finished = false) :
    (g.end_turn).2 = true ∧
      ∃ p, ((g.end_turn).1).get_current_player = some p ∧ p.is_finished = false := by
  obtain ⟨p0, hp0mem, hp0⟩ := hx
  have hn : 0 < g.players.length := List.length_pos_of_mem hp0mem
  have hne : g.get_finished_players.length ≠ g.players.length := by
    unfold Game.get_finished_players
    have hlt : (g.players.filter (fun p => p.is_finished)).length < g.players.length := by
      apply List.length_filter_lt_length_iff_exists.mpr
      exact ⟨p0, hp0mem, by simp [hp0]⟩
    omega
  unfold Game.end_turn
  rw [if_neg hne]
  refine ⟨rfl, ?_⟩
  apply endTurnAux_lands g.players.length g hn
  obtain ⟨t, rfl⟩ := List.mem_iff_get.mp hp0mem
  obtain ⟨k, hk1, hk2, hk3⟩ :=
    exists_step_hit g.players.length g.current_player t.1 g.is_clockwise hn hc t.2
  refine ⟨k, hk1, hk2, g.players.get t, ?_, hp0⟩
  rw [hk3]
  exact List.get?_eq_get t.2

theorem find?_get?_findIdx (l : List α) (p : α → Bool) :
    ∀ a, l.find? p = some a → l.get? (l.findIdx p) = some a ∧ p a = true := by
  induction l with
  | nil => intro a h; cases h
  | cons x xs ih =>
    intro a h
    by_cases hx : p x
    · rw [List.find?_cons_of_pos _ hx] at h
      cases h
      rw [List.findIdx_cons, hx]
      exact ⟨rfl, rfl⟩
    · rw [List.find?_cons_of_neg _ (by simpa using hx)] at h
      rw [List.findIdx_cons, Bool.of_not_eq_true hx]
      simpa using ih a h

theorem find_player_get? (g : Game) (n : String) (p : Player)
    (h : g.find_player n = some p) :
    g.players.get? (g.playerIdx n) = some p ∧ p.name = n := by
  have := find?_get?_findIdx g.players (fun q => q.name = n) p h
  exact ⟨this.1, by simpa using this.2⟩

theorem can_player_play_ok_elim (g : Game) (n : String) (c : Card)
    (h : g.can_player_play n c = Except.ok ()) :
    ∃ p q, g.find_player n = some p ∧ g.get_current_player = some q
      ∧ p.name = n ∧ q.name = n ∧ g.can_play_card c = true := by
  unfold Game.can_player_play Game.does_player_exist Game.is_player_at_turn at h
  cases hf : g.find_player n with
  | none => rw [hf] at h; cases h
  | some p =>
    rw [hf] at h
    dsimp only at h
    cases hq : g.get_current_player with
    | none => rw [hq] at h; cases h
    | some q =>
      rw [hq] at h
      dsimp only at h
      by_cases hname : p.name = q.name
      · rw [if_pos hname] at h
        dsimp only at h
        by_cases hcan : g.can_play_card c
        · have hpn : p.name = n := (find_player_get? g n p hf).2
          exact ⟨p, q, rfl, rfl, hpn, by rw [← hname]; exact hpn, hcan⟩
        · rw [Bool.not_eq_true] at hcan
          simp only [hcan] at h
          cases h
      · rw [if_neg hname] at h
        cases h

theorem mutate_player_ok (g : Game) (n : String) (c : Card) (mc : Option CardColor)
    (pos : Nat) (p : Player) (hp : g.players.get? (g.playerIdx n) = some p)
    (hmem : c ∈ p.cards) :
    g.mutate_player n c mc pos =
      ({ g with players := modifyAt g.players (g.playerIdx n) (fun _ =>
          { p with
            cards := p.cards.erase c
            position := if (p.cards.erase c).isEmpty then some pos else p.position }) },
        Except.ok (playedCardOf c mc, (p.cards.erase c).isEmpty)) := by
  simp only [Game.mutate_player, hp, if_pos hmem]

theorem mutate_player_err_no_card (g : Game) (n : String) (c : Card)
    (mc : Option CardColor) (pos : Nat) (p : Player)
    (hp : g.players.get? (g.playerIdx n) = some p) (hmem : c ∉ p.cards) :
    g.mutate_player n c mc pos = (g, Except.error (PlayCardError.noSuchCard c)) := by
  simp only [Game.mutate_player, hp, if_neg hmem]

/-- Full decomposition of a successful `play_card` call. -/
theorem play_card_ok_full (g : Game) (n : String) (c : Card) (mc : Option CardColor)
    (h : (g.play_card n c mc).2 = none) :
    ∃ p, g.players.get? (g.playerIdx n) = some p ∧ p.name = n ∧ c ∈ p.cards ∧
      (∃ q, g.get_current_player = some q ∧ q.name = n) ∧
      g.can_play_card c = true ∧
      (g.play_card n c mc).1 = g.afterPlay n c mc p := by
  cases hok : g.can_player_play n c with
  | error e =>
    unfold Game.play_card at h
    rw [hok] at h
    cases h
  | ok u =>
    cases u
    obtain ⟨p, q, hf, hq, hpn, hqn, hcan⟩ := can_player_play_ok_elim g n c hok
    have hget := (find_player_get? g n p hf).1
    by_cases hmem : c ∈ p.cards
    · refine ⟨p, hget, hpn, hmem, ⟨q, hq, hqn⟩, hcan, ?_⟩
      simp only [Game.play_card, hok, mutate_player_ok g n c mc _ p hget hmem,
        Game.afterPlay]
    · unfold Game.play_card at h
      rw [hok] at h
      dsimp only at h
      rw [mutate_player_err_no_card g n c mc _ p hget hmem] at h
      cases h

theorem can_player_draw_ok_elim (g : Game) (n : String)
    (h : g.can_player_draw n = Except.ok ()) :
    ∃ p q, g.find_player n = some p ∧ g.get_current_player = some q
      ∧ p.name = n ∧ q.name = n
      ∧ (∀ cd ∈ p.cards, g.can_play_card cd = false)
      ∧ ¬(g.active_cards.are_cards_active = true
          ∧ g.active_cards.active_symbol.getD default = CardSymbol.skip) := by
  unfold Game.can_player_draw Game.does_player_exist Game.is_player_at_turn at h
  cases hf : g.find_player n with
  | none => rw [hf] at h; cases h
  | some p =>
    rw [hf] at h
    dsimp only at h
    cases hq : g.get_current_player with
    | none => rw [hq] at h; cases h
    | some q =>
      rw [hq] at h
      dsimp only at h
      by_cases hname : p.name = q.name
      · rw [if_pos hname] at h
        dsimp only at h
        by_cases hany : p.cards.any (fun card => g.can_play_card card)
        · simp only [hany, if_true] at h
          cases h
        · rw [Bool.not_eq_true] at hany
          simp only [hany, Bool.false_eq_true, if_false] at h
          by_cases hskip : g.active_cards.are_cards_active
              && (g.active_cards.active_symbol.getD default = CardSymbol.skip)
          · simp only [hskip, if_true] at h
            cases h
          · have hpn : p.name = n := (find_player_get? g n p hf).2
            refine ⟨p, q, rfl, rfl, hpn, by rw [← hname]; exact hpn, ?_, ?_⟩
            · intro cd hcd
              have := List.any_eq_false.mp hany cd hcd
              simpa using this
            · intro ⟨h1, h2⟩
              exact hskip (by simp [h1, h2])
      · rw [if_neg hname] at h
        cases h

/-- Full decomposition of a successful `draw_cards` call. -/
theorem draw_cards_ok_elim (g : Game) (n : String) (g' : Game) (cs : List Card)
    (h : g.draw_cards n = (g', Except.ok cs)) :
    g.can_player_draw n = Except.ok () ∧ g' = (g.afterDraw n).1 ∧ cs = (g.afterDraw n).2 := by
  cases hok : g.can_player_draw n with
  | error e =>
    unfold Game.draw_cards at h
    rw [hok] at h
    cases h
  | ok u =>
    cases u
    unfold Game.draw_cards at h
    rw [hok] at h
    unfold Game.afterDraw
    by_cases hac : g.active_cards.are_cards_active
    · simp only [hac, if_true] at h ⊢
      rw [Prod.mk.injEq] at h
      exact ⟨by trivial, h.1.symm, by cases h.2; rfl⟩
    · simp only [hac, Bool.false_eq_true, if_false] at h ⊢
      rw [Prod.mk.injEq] at h
      exact ⟨by trivial, h.1.symm, by cases h.2; rfl⟩

theorem play_card_err_unchanged (g : Game) (n : String) (c : Card)
    (mc : Option CardColor) (e : PlayCardError)
    (h : (g.play_card n c mc).2 = some e) : (g.play_card n c mc).1 = g := by
  cases hok : g.can_player_play n c with
  | error e0 =>
    unfold Game.play_card
    rw [hok]
  | ok u =>
    cases u
    cases hp : g.players.get? (g.playerIdx n) with
    | none =>
      unfold Game.play_card
      rw [hok]
      dsimp only
      simp only [Game.mutate_player, hp]
    | some p =>
      by_cases hmem : c ∈ p.cards
      · unfold Game.play_card at h
        rw [hok] at h
        dsimp only at h
        rw [mutate_player_ok g n c mc _ p hp hmem] at h
        cases h
      · unfold Game.play_card
        rw [hok]
        dsimp only
        rw [mutate_player_err_no_card g n c mc _ p hp hmem]

theorem draw_cards_err_unchanged (g : Game) (n : String) (e : DrawCardsError)
    (h : (g.draw_cards n).2 = Except.error e) : (g.draw_cards n).1 = g := by
  cases hok : g.can_player_draw n with
  | error e0 =>
    unfold Game.draw_cards
    rw [hok]
  | ok u =>
    cases u
    unfold Game.draw_cards at h
    rw [hok] at h
    dsimp only at h
    by_cases hac : g.active_cards.are_cards_active
    · simp only [hac, if_true] at h
      cases h
    · simp only [hac, Bool.false_eq_true, if_false] at h
      cases h

/-- **C4.** Every erroring `play_card` or `draw_cards` call leaves the entire game
state (players, hands, positions, deck, chain, turn pointer, direction, status)
exactly as it was: validation happens before any mutation. -/
theorem errors_leave_state_unchanged :
    (∀ (g : Game) (n : String) (c : Card) (mc : Option CardColor) (e : PlayCardError),
      (g.play_card n c mc).2 = some e → (g.play_card n c mc).1 = g) ∧
    (∀ (g : Game) (n : String) (e : DrawCardsError),
      (g.draw_cards n).2 = Except.error e → (g.draw_cards n).1 = g) :=
  ⟨play_card_err_unchanged, draw_cards_err_unchanged⟩

/-- Witness for C4: playing as an unknown player fails and leaves `W1` unchanged. -/
theorem errors_leave_state_unchanged_witness :
    (W1.play_card "C" ⟨CardColor.red, CardSymbol.value 5⟩ none).1 = W1 :=
  errors_leave_state_unchanged.1 W1 "C" ⟨CardColor.red, CardSymbol.value 5⟩ none
    (PlayCardError.noSuchPlayer "C") (by rfl)

/-- **C10.** When the played card is not a Black-family card, the supplied
`maybe_new_color` has no effect at all: any two calls differing only in that
argument produce identical states and results. -/
theorem new_color_ignored_for_non_black (g : Game) (n : String) (c : Card)
    (mc mc' : Option CardColor) (h : c.should_be_black = false) :
    g.play_card n c mc = g.play_card n c mc' := by
  have hpc : ∀ m : Option CardColor, playedCardOf c m = c := by
    intro m
    unfold playedCardOf
    rw [h]
    simp
  have hm : ∀ pos, g.mutate_player n c mc pos = g.mutate_player n c mc' pos := by
    intro pos
    unfold Game.mutate_player
    rw [hpc mc, hpc mc']
  unfold Game.play_card
  simp only [hm]

/-- Witness for C10: for the non-black blue 7, supplying a color changes nothing. -/
theorem new_color_ignored_for_non_black_witness :
    W1.play_card "A" ⟨CardColor.blue, CardSymbol.value 7⟩ none
      = W1.play_card "A" ⟨CardColor.blue, CardSymbol.value 7⟩ (some CardColor.red) :=
  new_color_ignored_for_non_black W1 "A" ⟨CardColor.blue, CardSymbol.value 7⟩ none
    (some CardColor.red) (by rfl)

theorem can_player_draw_ok_of (g : Game) (n : String) (p q : Player)
    (hf : g.find_player n = some p) (hq : g.get_current_player = some q)
    (hname : p.name = q.name)
    (hnone : ∀ cd ∈ p.cards, g.can_play_card cd = false)
    (hskip : ¬(g.active_cards.are_cards_active = true
      ∧ g.active_cards.active_symbol.getD default = CardSymbol.skip)) :
    g.can_player_draw n = Except.ok () := by
  have hany : p.cards.any (fun card => g.can_play_card card) = false :=
    List.any_eq_false.mpr (fun cd hcd => by rw [hnone cd hcd]; exact Bool.false_ne_true)
  have hcond : (g.active_cards.are_cards_active
      && decide (g.active_cards.active_symbol.getD default = CardSymbol.skip)) = false := by
    cases hA : g.active_cards.are_cards_active
    · simp
    · simp only [Bool.true_and]
      exact decide_eq_false (fun hs => hskip ⟨hA, hs⟩)
  unfold Game.can_player_draw Game.does_player_exist Game.is_player_at_turn
  rw [hf]
  dsimp only
  rw [hq]
  dsimp only
  rw [if_pos hname]
  dsimp only
  simp only [hany, Bool.false_eq_true, if_false, hcond]

theorem can_player_draw_can_play_of (g : Game) (n : String) (p q : Player)
    (hf : g.find_player n = some p) (hq : g.get_current_player = some q)
    (hname : p.name = q.name)
    (hsome : ∃ cd ∈ p.cards, g.can_play_card cd = true) :
    g.can_player_draw n = Except.error DrawCardsError.playerCanPlayInstead := by
  have hany : p.cards.any (fun card => g.can_play_card card) = true := by
    obtain ⟨cd, hcd, hcan⟩ := hsome
    exact List.any_eq_true.mpr ⟨cd, hcd, hcan⟩
  unfold Game.can_player_draw Game.does_player_exist Game.is_player_at_turn
  rw [hf]
  dsimp only
  rw [hq]
  dsimp only
  rw [if_pos hname]
  dsimp only
  simp only [hany, if_true]

theorem can_player_draw_skip_of (g : Game) (n : String) (p q : Player)
    (hf : g.find_player n = some p) (hq : g.get_current_player = some q)
    (hname : p.name = q.name)
    (hnone : ∀ cd ∈ p.cards, g.can_play_card cd = false)
    (hac : g.active_cards.are_cards_active = true)
    (hsym : g.active_cards.active_symbol.getD default = CardSymbol.skip) :
    g.can_player_draw n
      = Except.error (DrawCardsError.playerMustPlayInstead g.deck.top_discard_card) := by
  have hany : p.cards.any (fun card => g.can_play_card card) = false :=
    List.any_eq_false.mpr (fun cd hcd => by rw [hnone cd hcd]; exact Bool.false_ne_true)
  unfold Game.can_player_draw Game.does_player_exist Game.is_player_at_turn
  rw [hf]
  dsimp only
  rw [hq]
  dsimp only
  rw [if_pos hname]
  dsimp only
  simp only [hany, Bool.false_eq_true, if_false, hac, hsym, decide_True, Bool.true_and,
    if_true]

theorem draw_cards_snd (g : Game) (n : String) :
    (g.draw_cards n).2 = (match g.can_player_draw n with
      | Except.error e => Except.error e
      | Except.ok _ => Except.ok (g.afterDraw n).2) := by
  cases hok : g.can_player_draw n with
  | error e =>
    unfold Game.draw_cards
    rw [hok]
  | ok u =>
    cases u
    unfold Game.draw_cards Game.afterDraw
    rw [hok]
    dsimp only
    by_cases hac : g.active_cards.are_cards_active
    · simp only [hac, if_true]
    · simp only [hac, Bool.false_eq_true, if_false]

/-- **C7.** `draw_cards` succeeds iff the named player exists, is the current player
(by name), holds no card that `can_play_card` accepts, and no Skip chain is active;
with a playable card in hand it fails with `PlayerCanPlayInstead`, and with no
playable card but an active Skip chain it fails with `PlayerMustPlayInstead`
carrying the top discard card. -/
theorem draw_cards_eligibility (g : Game) (n : String) :
    ((∃ cs, (g.draw_cards n).2 = Except.ok cs) ↔
      (∃ p q, g.find_player n = some p ∧ g.get_current_player = some q
        ∧ p.name = q.name
        ∧ (∀ cd ∈ p.cards, g.can_play_card cd = false)
        ∧ ¬(g.active_cards.are_cards_active = true
            ∧ g.active_cards.active_symbol.getD default = CardSymbol.skip))) ∧
    (∀ p q, g.find_player n = some p → g.get_current_player = some q →
      p.name = q.name → (∃ cd ∈ p.cards, g.can_play_card cd = true) →
      (g.draw_cards n).2 = Except.error DrawCardsError.playerCanPlayInstead) ∧
    (∀ p q, g.find_player n = some p → g.get_current_player = some q →
      p.name = q.name → (∀ cd ∈ p.cards, g.can_play_card cd = false) →
      g.active_cards.are_cards_active = true →
      g.active_cards.active_symbol.getD default = CardSymbol.skip →
      (g.draw_cards n).2
        = Except.error (DrawCardsError.playerMustPlayInstead g.deck.top_discard_card)) := by
  refine ⟨⟨?_, ?_⟩, ?_, ?_⟩
  · intro ⟨cs, hcs⟩
    rw [draw_cards_snd] at hcs
    cases hok : g.can_player_draw n with
    | error e => rw [hok] at hcs; cases hcs
    | ok u =>
      cases u
      obtain ⟨p, q, hf, hq, hpn, hqn, hnone, hskip⟩ := can_player_draw_ok_elim g n hok
      exact ⟨p, q, hf, hq, by rw [hpn, hqn], hnone, hskip⟩
  · intro ⟨p, q, hf, hq, hname, hnone, hskip⟩
    rw [draw_cards_snd, can_player_draw_ok_of g n p q hf hq hname hnone hskip]
    exact ⟨(g.afterDraw n).2, rfl⟩
  · intro p q hf hq hname hsome
    rw [draw_cards_snd, can_player_draw_can_play_of g n p q hf hq hname hsome]
  · intro p q hf hq hname hnone hac hsym
    rw [draw_cards_snd, can_player_draw_skip_of g n p q hf hq hname hnone hac hsym]

/-- Witness for C7: in `W2` the current player holds a playable red Skip, so drawing
fails with `PlayerCanPlayInstead`. -/
theorem draw_cards_eligibility_witness :
    (W2.draw_cards "A").2 = Except.error DrawCardsError.playerCanPlayInstead :=
  (draw_cards_eligibility W2 "A").2.1
    { name := "A", cards := [⟨CardColor.blue, CardSymbol.value 7⟩,
        ⟨CardColor.red, CardSymbol.skip⟩], is_author := true, position := none }
    { name := "A", cards := [⟨CardColor.blue, CardSymbol.value 7⟩,
        ⟨CardColor.red, CardSymbol.skip⟩], is_author := true, position := none }
    (by rfl) (by rfl) rfl
    ⟨⟨CardColor.red, CardSymbol.skip⟩, by decide, by rfl⟩

theorem deck_draw_eval_cons (d : Deck) (a : Card) (rest : List Card)
    (hdp : d.draw_pile = a :: rest) :
    d.draw = (some a, { d with draw_pile := rest }) := by
  simp [Deck.draw, hdp]

theorem deck_draw_eval_nil_nil (d : Deck) (hdp : d.draw_pile = [])
    (hdc : d.discard_pile = []) :
    d.draw = (none, { draw_pile := [], discard_pile := [] }) := by
  simp [Deck.draw, hdp, hdc]

theorem deck_draw_eval_nil_one (d : Deck) (x : Card) (hdp : d.draw_pile = [])
    (hdc : d.discard_pile = [x]) :
    d.draw = (none, { draw_pile := [], discard_pile := [x] }) := by
  simp [Deck.draw, hdp, hdc]

theorem deck_draw_eval_nil_cons (d : Deck) (x y : Card) (ys : List Card)
    (hdp : d.draw_pile = []) (hdc : d.discard_pile = x :: y :: ys) :
    d.draw = (some y, { draw_pile := ys, discard_pile := [x] }) := by
  simp [Deck.draw, hdp, hdc]

theorem deck_draw_some (d : Deck) (c : Card) (d' : Deck) (h : d.draw = (some c, d')) :
    deckCards d = c ::ₘ deckCards d' := by
  cases hdp : d.draw_pile with
  | cons a rest =>
    rw [deck_draw_eval_cons d a rest hdp] at h
    injection h with h1 h2
    cases h1
    rw [← h2]
    simp [deckCards, hdp]
  | nil =>
    cases hdc : d.discard_pile with
    | nil =>
      rw [deck_draw_eval_nil_nil d hdp hdc] at h
      injection h with h1 h2
      cases h1
    | cons x xs =>
      cases xs with
      | nil =>
        rw [deck_draw_eval_nil_one d x hdp hdc] at h
        injection h with h1 h2
        cases h1
      | cons y ys =>
        rw [deck_draw_eval_nil_cons d x y ys hdp hdc] at h
        injection h with h1 h2
        cases h1
        rw [← h2]
        simp only [deckCards, hdp, hdc]
        have hs : ((ys : List Card) : Multiset Card) + (([x] : List Card) : Multiset Card)
            = x ::ₘ (ys : Multiset Card) := by
          rw [add_comm]
          rfl
        rw [hs, Multiset.cons_swap, Multiset.cons_coe, Multiset.cons_coe]
        simp

theorem deck_draw_none (d : Deck) (d' : Deck) (h : d.draw = (none, d')) :
    deckCards d' = deckCards d ∧ d'.draw_pile = [] ∧ d'.discard_pile.length ≤ 1 := by
  cases hdp : d.draw_pile with
  | cons a rest =>
    rw [deck_draw_eval_cons d a rest hdp] at h
    injection h with h1 h2
    cases h1
  | nil =>
    cases hdc : d.discard_pile with
    | nil =>
      rw [deck_draw_eval_nil_nil d hdp hdc] at h
      injection h with h1 h2
      rw [← h2]
      simp [deckCards, hdp, hdc]
    | cons x xs =>
      cases xs with
      | nil =>
        rw [deck_draw_eval_nil_one d x hdp hdc] at h
        injection h with h1 h2
        rw [← h2]
        simp [deckCards, hdp, hdc]
      | cons y ys =>
        rw [deck_draw_eval_nil_cons d x y ys hdp hdc] at h
        injection h with h1 h2
        cases h1

theorem drawLoop_conserve : ∀ (k : Nat) (d : Deck),
    deckCards d = ↑(drawLoop d k).1 + deckCards (drawLoop d k).2 := by
  intro k
  induction k with
  | zero => intro d; simp [drawLoop]
  | succ m ih =>
    intro d
    cases hd : d.draw with
    | mk c? d2 =>
      cases c? with
      | none =>
        have hloop : drawLoop d (m + 1) = ([], d2) := by
          simp only [drawLoop, hd]
        rw [hloop]
        simp [(deck_draw_none d d2 hd).1]
      | some c =>
        have hloop : drawLoop d (m + 1) = (c :: (drawLoop d2 m).1, (drawLoop d2 m).2) := by
          simp only [drawLoop, hd]
        rw [hloop]
        dsimp only
        rw [deck_draw_some d c d2 hd, ih d2, ← Multiset.cons_add, Multiset.cons_coe]

theorem drawLoop_length : ∀ (k : Nat) (d : Deck),
    (drawLoop d k).1.length = k
      ∨ ((drawLoop d k).1.length < k ∧ (drawLoop d k).2.draw_pile = []
          ∧ (drawLoop d k).2.discard_pile.length ≤ 1) := by
  intro k
  induction k with
  | zero => intro d; exact Or.inl rfl
  | succ m ih =>
    intro d
    cases hd : d.draw with
    | mk c? d2 =>
      cases c? with
      | none =>
        have hloop : drawLoop d (m + 1) = ([], d2) := by
          simp only [drawLoop, hd]
        rw [hloop]
        exact Or.inr ⟨by simp, (deck_draw_none d d2 hd).2.1, (deck_draw_none d d2 hd).2.2⟩
      | some c =>
        have hloop : drawLoop d (m + 1) = (c :: (drawLoop d2 m).1, (drawLoop d2 m).2) := by
          simp only [drawLoop, hd]
        rw [hloop]
        cases ih d2 with
        | inl hl => exact Or.inl (by simp [hl])
        | inr hr => exact Or.inr ⟨by simp; omega, hr.2.1, hr.2.2⟩

theorem draw_n_cards_eq (g : Game) (n : String) (k : Nat) :
    g.draw_n_cards n k =
      ({ g with
          deck := (drawLoop g.deck k).2
          players := modifyAt g.players (g.playerIdx n)
            (fun p => { p with cards := p.cards ++ (drawLoop g.deck k).1 }) },
        (drawLoop g.deck k).1) := rfl

/-- **C2.** A successful `draw_cards` call requests the summed forced-draw amount and
clears the chain when a chain is active (otherwise exactly 1 card); the drawn cards
are removed from the deck and appended to the acting player's hand, stopping early
exactly when the deck is exhausted; the turn is then advanced and the drawn cards
are returned. -/
theorem draw_cards_spec (g : Game) (n : String) (g' : Game) (cs : List Card)
    (h : g.draw_cards n = (g', Except.ok cs)) :
    ∃ (k : Nat) (gmid : Game),
      (g.active_cards.are_cards_active = true →
        k = (g.active_cards.sum_active_draw_cards).getD 0
          ∧ gmid.active_cards.cards = []) ∧
      (g.active_cards.are_cards_active = false →
        k = 1 ∧ gmid.active_cards = g.active_cards) ∧
      gmid.players = modifyAt g.players (g.playerIdx n)
        (fun p => { p with cards := p.cards ++ cs }) ∧
      deckCards g.deck = ↑cs + deckCards gmid.deck ∧
      (cs.length = k ∨ (cs.length < k ∧ gmid.deck.draw_pile = []
        ∧ gmid.deck.discard_pile.length ≤ 1)) ∧
      gmid.current_player = g.current_player ∧
      gmid.status = g.status ∧
      g' = (gmid.end_turn).1 := by
  obtain ⟨hok, hg', hcs⟩ := draw_cards_ok_elim g n g' cs h
  by_cases hac : g.active_cards.are_cards_active
  · have hAD : g.afterDraw n =
        ((({ g with active_cards := g.active_cards.clear }.draw_n_cards n
            ((g.active_cards.sum_active_draw_cards).getD 0)).1.end_turn).1,
          ({ g with active_cards := g.active_cards.clear }.draw_n_cards n
            ((g.active_cards.sum_active_draw_cards).getD 0)).2) := by
      simp only [Game.afterDraw, hac, if_true]
    have hcs' : cs = (drawLoop g.deck ((g.active_cards.sum_active_draw_cards).getD 0)).1 := by
      rw [hcs, hAD]
      rfl
    refine ⟨(g.active_cards.sum_active_draw_cards).getD 0,
      { g with
        active_cards := { cards := [] }
        deck := (drawLoop g.deck ((g.active_cards.sum_active_draw_cards).getD 0)).2
        players := modifyAt g.players (g.playerIdx n)
          (fun p => { p with cards := p.cards
            ++ (drawLoop g.deck ((g.active_cards.sum_active_draw_cards).getD 0)).1 }) },
      ?_, ?_, ?_, ?_, ?_, rfl, rfl, ?_⟩
    · intro _
      exact ⟨rfl, rfl⟩
    · intro h'
      rw [h'] at hac
      simp at hac
    · rw [hcs']
    · rw [hcs']
      exact drawLoop_conserve _ g.deck
    · rw [hcs']
      exact drawLoop_length _ g.deck
    · rw [hg', hAD]
      rfl
  · have hacf : g.active_cards.are_cards_active = false := by simpa using hac
    have hAD : g.afterDraw n =
        (((g.draw_n_cards n 1).1.end_turn).1, (g.draw_n_cards n 1).2) := by
      simp only [Game.afterDraw, hacf, Bool.false_eq_true, if_false]
    have hcs' : cs = (drawLoop g.deck 1).1 := by
      rw [hcs, hAD]
      rfl
    refine ⟨1,
      { g with
        deck := (drawLoop g.deck 1).2
        players := modifyAt g.players (g.playerIdx n)
          (fun p => { p with cards := p.cards ++ (drawLoop g.deck 1).1 }) },
      ?_, ?_, ?_, ?_, ?_, rfl, rfl, ?_⟩
    · intro h'
      exact absurd h' hac
    · intro _
      exact ⟨rfl, rfl⟩
    · rw [hcs']
    · rw [hcs']
      exact drawLoop_conserve _ g.deck
    · rw [hcs']
      exact drawLoop_length _ g.deck
    · rw [hg', hAD]
      rfl

/-- Witness for C2: in `W1` the current player holds no playable card, so they draw
exactly one card (the green 3) from the draw pile. -/
theorem draw_cards_spec_witness :
    (W1.draw_cards "A").2 = Except.ok [⟨CardColor.green, CardSymbol.value 3⟩]
      ∧ ∃ (k : Nat) (gmid : Game), (W1.active_cards.are_cards_active = true →
        k = (W1.active_cards.sum_active_draw_cards).getD 0
          ∧ gmid.active_cards.cards = []) ∧
      (W1.active_cards.are_cards_active = false →
        k = 1 ∧ gmid.active_cards = W1.active_cards) ∧
      gmid.players = modifyAt W1.players (W1.playerIdx "A")
        (fun p => { p with cards := p.cards ++ [⟨CardColor.green, CardSymbol.value 3⟩] }) ∧
      deckCards W1.deck = ↑[(⟨CardColor.green, CardSymbol.value 3⟩ : Card)]
        + deckCards gmid.deck ∧
      ([(⟨CardColor.green, CardSymbol.value 3⟩ : Card)].length = k
        ∨ ([(⟨CardColor.green, CardSymbol.value 3⟩ : Card)].length < k
          ∧ gmid.deck.draw_pile = [] ∧ gmid.deck.discard_pile.length ≤ 1)) ∧
      gmid.current_player = W1.current_player ∧
      gmid.status = W1.status ∧
      (W1.draw_cards "A").1 = (gmid.end_turn).1 :=
  ⟨by rfl,
    draw_cards_spec W1 "A" (W1.draw_cards "A").1 [⟨CardColor.green, CardSymbol.value 3⟩]
      (by rfl)⟩

theorem deal7_ok (k : Nat) : ∀ (d : Deck) (p : Player) (d' : Deck) (p' : Player),
    deal7 d p k = (d', p', true) →
    p'.cards.length = p.cards.length + k ∧ p'.position = p.position := by
  induction k with
  | zero =>
    intro d p d' p' h
    injection h with h1 h2
    injection h2 with h2 h3
    rw [← h2]
    exact ⟨rfl, rfl⟩
  | succ m ih =>
    intro d p d' p' h
    cases hd : d.draw with
    | mk c? d2 =>
      cases c? with
      | none =>
        have : deal7 d p (m + 1) = (d2, p, false) := by
          simp only [deal7, hd]
        rw [this] at h
        injection h with h1 h2
        injection h2 with h2 h3
        cases h3
      | some c =>
        have : deal7 d p (m + 1) = deal7 d2 (p.give_card c) m := by
          simp only [deal7, hd]
        rw [this] at h
        obtain ⟨hl, hp⟩ := ih d2 (p.give_card c) d' p' h
        refine ⟨?_, hp⟩
        rw [hl]
        simp [Player.give_card]
        omega

theorem dealLoop_ok : ∀ (ps : List Player) (d : Deck) (d' : Deck) (ps' : List Player),
    dealLoop d ps = (d', ps', true) →
    ps'.length = ps.length ∧
      ∀ q ∈ ps', q.cards.length = CARDS_DEALT_TO_PLAYERS ∧ ∃ p ∈ ps, q.position = p.position := by
  intro ps
  induction ps with
  | nil =>
    intro d d' ps' h
    injection h with h1 h2
    injection h2 with h2 h3
    rw [← h2]
    exact ⟨rfl, by intro q hq; cases hq⟩
  | cons p rest ih =>
    intro d d' ps' h
    cases h7 : deal7 d p.drop_all_cards CARDS_DEALT_TO_PLAYERS with
    | mk d1 pb =>
      cases pb with
      | mk p1 ok1 =>
        cases ok1 with
        | false =>
          have : dealLoop d (p :: rest) = (d1, p1 :: rest, false) := by
            simp only [dealLoop, h7]
          rw [this] at h
          injection h with h1 h2
          injection h2 with h2 h3
          cases h3
        | true =>
          have hstep : dealLoop d (p :: rest)
              = ((dealLoop d1 rest).1, p1 :: (dealLoop d1 rest).2.1,
                  (dealLoop d1 rest).2.2) := by
            simp only [dealLoop, h7]
          rw [hstep] at h
          injection h with h1 h2
          injection h2 with h2 h3
          obtain ⟨hlen, hall⟩ := ih d1 (dealLoop d1 rest).1 (dealLoop d1 rest).2.1
            (by rw [← h3])
          obtain ⟨h71, h72⟩ := deal7_ok CARDS_DEALT_TO_PLAYERS d p.drop_all_cards d1 p1 h7
          constructor
          · rw [← h2]
            simp [hlen]
          · intro q hq
            rw [← h2] at hq
            cases hq with
            | head =>
              refine ⟨by simpa [Player.drop_all_cards] using h71, p, List.mem_cons_self p rest, ?_⟩
              rw [h72]
              rfl
            | tail _ hq' =>
              obtain ⟨hlq, pp, hpp, hqp⟩ := hall q hq'
              exact ⟨hlq, pp, List.mem_cons_of_mem p hpp, hqp⟩

theorem start_ok_elim (g : Game) (order : List Card) (k : Nat) (g' : Game)
    (h : g.start order k = (g', none)) :
    g'.status = GameStatus.running ∧
    g'.current_player = k % g.players.length ∧
    g'.players.length = g.players.length ∧
    (∀ q ∈ g'.players, q.cards.length = CARDS_DEALT_TO_PLAYERS ∧ q.position = none) := by
  unfold Game.start Game.deal_starting_cards at h
  by_cases hst : g.status = GameStatus.running
  · rw [if_pos hst] at h
    injection h with h1 h2
    cases h2
  · rw [if_neg hst] at h
    dsimp only at h
    cases hdl : dealLoop (Deck.new order) (g.players.map Player.clear_position) with
    | mk d1 pr =>
      cases pr with
      | mk ps1 ok1 =>
        rw [hdl] at h
        dsimp only at h
        cases ok1 with
        | false =>
          simp only [Bool.false_eq_true, if_false] at h
          injection h with h1 h2
          cases h2
        | true =>
          simp only [if_true] at h
          injection h with h1 h2
          obtain ⟨hlen, hall⟩ := dealLoop_ok (g.players.map Player.clear_position)
            (Deck.new order) d1 ps1 hdl
          rw [← h1]
          refine ⟨rfl, rfl, ?_, ?_⟩
          · show ps1.length = g.players.length
            rw [hlen]
            simp
          · intro q hq
            obtain ⟨hlq, pp, hpp, hqp⟩ := hall q hq
            refine ⟨hlq, ?_⟩
            obtain ⟨p0, _, hp0⟩ := List.mem_map.mp hpp
            rw [hqp, ← hp0]
            rfl

theorem afterPlay_fields (g : Game) (n : String) (c : Card) (mc : Option CardColor)
    (p : Player) :
    ∃ g3 : Game, g.afterPlay n c mc p = ((g3.end_turn).1).play_card_messages n
      ∧ g3.players = modifyAt g.players (g.playerIdx n) (fun _ =>
          { p with
            cards := p.cards.erase c
            position := if (p.cards.erase c).isEmpty
              then some g.get_finished_players.length else p.position })
      ∧ g3.current_player = g.current_player
      ∧ g3.status = g.status
      ∧ g3.deck = (g.deck.play (playedCardOf c mc)) := by
  refine ⟨{ ({ g with players := modifyAt g.players (g.playerIdx n) (fun _ =>
      { p with
        cards := p.cards.erase c
        position := if (p.cards.erase c).isEmpty
          then some g.get_finished_players.length else p.position }) }
      : Game).handle_played_card (playedCardOf c mc) with
      deck := (({ g with players := modifyAt g.players (g.playerIdx n) (fun _ =>
        { p with
          cards := p.cards.erase c
          position := if (p.cards.erase c).isEmpty
            then some g.get_finished_players.length else p.position }) }
        : Game).handle_played_card (playedCardOf c mc)).deck.play (playedCardOf c mc) },
    rfl, ?_, ?_, ?_, ?_⟩
  all_goals
    obtain ⟨ac, cw, hh⟩ := handle_played_card_eq_set
      ({ g with players := modifyAt g.players (g.playerIdx n) (fun _ =>
        { p with
          cards := p.cards.erase c
          position := if (p.cards.erase c).isEmpty
            then some g.get_finished_players.length else p.position }) } : Game)
      (playedCardOf c mc)
    rw [hh]

theorem afterDraw_fields (g : Game) (n : String) :
    ∃ gmid : Game, (g.afterDraw n).1 = (gmid.end_turn).1
      ∧ (g.afterDraw n).1.players = gmid.players
      ∧ gmid.players.length = g.players.length
      ∧ gmid.current_player = g.current_player
      ∧ gmid.status = g.status := by
  by_cases hac : g.active_cards.are_cards_active
  · refine ⟨({ g with active_cards := g.active_cards.clear } : Game).draw_n_cards n
      ((g.active_cards.sum_active_draw_cards).getD 0) |>.1, ?_, ?_, ?_, rfl, rfl⟩
    · simp only [Game.afterDraw, hac, if_true]
    · simp only [Game.afterDraw, hac, if_true]
      obtain ⟨c', hc'⟩ := end_turn_eq_set
        ((({ g with active_cards := g.active_cards.clear } : Game).draw_n_cards n
          ((g.active_cards.sum_active_draw_cards).getD 0)).1)
      rw [hc']
    · rw [draw_n_cards_eq]
      exact modifyAt_length _ _ _
  · have hacf : g.active_cards.are_cards_active = false := by simpa using hac
    refine ⟨(g.draw_n_cards n 1).1, ?_, ?_, ?_, rfl, rfl⟩
    · simp only [Game.afterDraw, hacf, Bool.false_eq_true, if_false]
    · simp only [Game.afterDraw, hacf, Bool.false_eq_true, if_false]
      obtain ⟨c', hc'⟩ := end_turn_eq_set ((g.draw_n_cards n 1).1)
      rw [hc']
    · rw [draw_n_cards_eq]
      exact modifyAt_length _ _ _

theorem get?_some_lt (l : List α) (i : Nat) (a : α) (h : l.get? i = some a) :
    i < l.length := by
  by_contra hge
  rw [List.get?_eq_none.mpr (by omega)] at h
  cases h

theorem play_card_ok_turn_inv (g : Game) (n : String) (c : Card) (mc : Option CardColor)
    (h : (g.play_card n c mc).2 = none) : TurnInv (g.play_card n c mc).1 := by
  obtain ⟨p, hget, hpn, hmem, ⟨q, hq, hqn⟩, hcan, heq⟩ := play_card_ok_full g n c mc h
  rw [heq]
  obtain ⟨g3, hap, hpl, hcur, hstat, hdeck⟩ := afterPlay_fields g n c mc p
  rw [hap]
  obtain ⟨s, hmsg⟩ := play_card_messages_eq_set ((g3.end_turn).1) n
  rw [hmsg]
  intro _ hex
  obtain ⟨c', hset⟩ := end_turn_eq_set g3
  have hpl2 : ({ (g3.end_turn).1 with status := s } : Game).players = g3.players := by
    rw [hset]
  rw [hpl2] at hex
  have hc3 : g3.current_player < g3.players.length := by
    rw [hcur, hpl, modifyAt_length]
    exact get?_some_lt _ _ _ hq
  obtain ⟨_, pw, hpw, hpwf⟩ := end_turn_lands g3 hc3 hex
  refine ⟨pw, ?_, hpwf⟩
  show ({ (g3.end_turn).1 with status := s } : Game).get_current_player = some pw
  rw [show ({ (g3.end_turn).1 with status := s } : Game).get_current_player
    = ((g3.end_turn).1).get_current_player from rfl]
  exact hpw

theorem draw_cards_ok_turn_inv (g : Game) (n : String) (g' : Game) (cs : List Card)
    (h : g.draw_cards n = (g', Except.ok cs)) : TurnInv g' := by
  obtain ⟨hok, hg', _⟩ := draw_cards_ok_elim g n g' cs h
  obtain ⟨p, q, hf, hq, hpn, hqn, _, _⟩ := can_player_draw_ok_elim g n hok
  obtain ⟨gmid, hmid, hplmid, hlen, hcur, hstat⟩ := afterDraw_fields g n
  rw [hg', hmid]
  intro _ hex
  obtain ⟨c', hset⟩ := end_turn_eq_set gmid
  have hplx : ((gmid.end_turn).1).players = gmid.players := by rw [hset]
  rw [hplx] at hex
  have hcm : gmid.current_player < gmid.players.length := by
    rw [hcur, hlen]
    exact get?_some_lt _ _ _ hq
  obtain ⟨_, pw, hpw, hpwf⟩ := end_turn_lands gmid hcm hex
  exact ⟨pw, hpw, hpwf⟩

theorem start_ok_turn_inv (g : Game) (order : List Card) (k : Nat) (g' : Game)
    (hn : 0 < g.players.length) (h : g.start order k = (g', none)) : TurnInv g' := by
  obtain ⟨hst, hcur, hlen, hall⟩ := start_ok_elim g order k g' h
  intro _ _
  have hlt : g'.current_player < g'.players.length := by
    rw [hcur, hlen]
    exact Nat.mod_lt _ hn
  refine ⟨g'.players.get ⟨g'.current_player, hlt⟩, List.get?_eq_get hlt, ?_⟩
  obtain ⟨hcards, _⟩ := hall _ (List.get_mem g'.players g'.current_player hlt)
  unfold Player.is_finished
  cases hcc : (g'.players.get ⟨g'.current_player, hlt⟩).cards with
  | nil => rw [hcc] at hcards; cases hcards
  | cons a as => simp

/-- **C5 (amended).** Every *successful* public operation re-establishes the
turn-validity invariant: after a successful `start`, `play_card` or `draw_cards`,
while the game is Running and some player is unfinished, `current_player` indexes a
non-finished player. (The unamended claim fails for a *failed* `start`; see the
counterexample.) -/
theorem turn_validity_preserved :
    (∀ (g : Game) (order : List Card) (k : Nat) (g' : Game),
      0 < g.players.length → g.start order k = (g', none) → TurnInv g') ∧
    (∀ (g : Game) (n : String) (c : Card) (mc : Option CardColor),
      (g.play_card n c mc).2 = none → TurnInv (g.play_card n c mc).1) ∧
    (∀ (g : Game) (n : String) (g' : Game) (cs : List Card),
      g.draw_cards n = (g', Except.ok cs) → TurnInv g') :=
  ⟨fun g order k g' hn h => start_ok_turn_inv g order k g' hn h,
    fun g n c mc h => play_card_ok_turn_inv g n c mc h,
    fun g n g' cs h => draw_cards_ok_turn_inv g n g' cs h⟩

/-- Witness for C5: the two-player game `G2` started with the full deck satisfies the
invariant. -/
theorem turn_validity_preserved_witness : TurnInv (G2.start fullCardList 0).1 :=
  turn_validity_preserved.1 G2 fullCardList 0 (G2.start fullCardList 0).1
    (by decide) (by rfl)

/-- Counterexample for C5 as stated: `start` on a seventeen-player lobby fails
mid-deal after the status was already set to Running and the starting index was
already chosen; the resulting state is Running, has unfinished players, yet its
current player (never dealt a card) is finished. -/
theorem turn_validity_counterexample :
    (G17.start fullCardList 16).2 = some GameStartError.deckEmptyWhenStartingGame ∧
    (G17.start fullCardList 16).1.status = GameStatus.running ∧
    ((G17.start fullCardList 16).1.players.any (fun p => p.is_finished = false)) = true ∧
    ((G17.start fullCardList 16).1.get_current_player.map Player.is_finished)
      = some true := by
  exact ⟨by rfl, by rfl, by rfl, by rfl⟩

theorem endTurnAux_current_lt : ∀ (fuel : Nat) (g : Game), 0 < g.players.length →
    (g.endTurnAux (fuel + 1)).current_player < g.players.length := by
  intro fuel
  induction fuel with
  | zero =>
    intro g hn
    have hidx : stepIdx g.players.length g.is_clockwise g.current_player
        < g.players.length := stepIdx_lt _ hn _ _
    cases hp : (g.next_turn).get_current_player with
    | none => simp only [Game.endTurnAux, hp]; exact hidx
    | some p =>
      by_cases hf : p.is_finished
      · simp only [Game.endTurnAux, hp, hf, if_true]; exact hidx
      · simp only [Game.endTurnAux, hp, if_neg hf]; exact hidx
  | succ m ih =>
    intro g hn
    have hidx : stepIdx g.players.length g.is_clockwise g.current_player
        < g.players.length := stepIdx_lt _ hn _ _
    cases hp : (g.next_turn).get_current_player with
    | none =>
      simp only [Game.endTurnAux, hp]
      exact ih g.next_turn hn
    | some p =>
      by_cases hf : p.is_finished
      · simp only [Game.endTurnAux, hp, hf, if_true]
        exact ih g.next_turn hn
      · simp only [Game.endTurnAux, hp, if_neg hf]
        exact hidx

theorem end_turn_current_lt (g : Game) (hc : g.current_player < g.players.length)
    (hn : 0 < g.players.length) :
    ((g.end_turn).1).current_player < g.players.length := by
  unfold Game.end_turn
  by_cases h : g.get_finished_players.length = g.players.length
  · rw [if_pos h]
    exact hc
  · rw [if_neg h]
    obtain ⟨m, hm⟩ : ∃ m, g.players.length = m + 1 :=
      ⟨g.players.length - 1, by omega⟩
    rw [hm]
    have := endTurnAux_current_lt m g hn
    rw [hm] at this
    exact this

/-- **C9.** When `play_card` succeeds on a Running game, the status becomes
`Finished` exactly when the current player after the turn advance carries the same
name as the player who just played; otherwise the game stays Running. -/
theorem play_finish_iff_loopback (g : Game) (n : String) (c : Card)
    (mc : Option CardColor) (hrun : g.status = GameStatus.running)
    (h : (g.play_card n c mc).2 = none) :
    ((g.play_card n c mc).1.status = GameStatus.finished ↔
      ∃ p, (g.play_card n c mc).1.get_current_player = some p ∧ p.name = n) := by
  obtain ⟨p, hget, hpn, hmem, ⟨q, hq, hqn⟩, hcan, heq⟩ := play_card_ok_full g n c mc h
  rw [heq]
  obtain ⟨g3, hap, hpl, hcur, hstat, hdeck⟩ := afterPlay_fields g n c mc p
  rw [hap]
  have hcq : g.current_player < g.players.length := get?_some_lt _ _ _ hq
  have hc3 : g3.current_player < g3.players.length := by
    rw [hcur, hpl, modifyAt_length]
    exact hcq
  have hn3 : 0 < g3.players.length := by omega
  obtain ⟨ce, hce⟩ := end_turn_eq_set g3
  have hltm : ((g3.end_turn).1).current_player < ((g3.end_turn).1).players.length := by
    rw [hce]
    have := end_turn_current_lt g3 hc3 hn3
    rw [hce] at this
    exact this
  obtain ⟨pc, hpc⟩ : ∃ pc, ((g3.end_turn).1).get_current_player = some pc :=
    ⟨_, List.get?_eq_get hltm⟩
  rw [play_card_messages_eq, hpc]
  simp only [Option.map_some', Option.getD_some]
  by_cases hcn : pc.name = n
  · rw [if_pos hcn]
    constructor
    · intro _
      exact ⟨pc, hpc, hcn⟩
    · intro _
      rfl
  · rw [if_neg hcn]
    constructor
    · intro hfin
      have hsg : ((g3.end_turn).1).status = g.status := by
        rw [hce]
        exact hstat
      rw [hsg, hrun] at hfin
      cases hfin
    · intro ⟨p', hp', hp'n⟩
      rw [hpc] at hp'
      injection hp' with hp'
      rw [← hp'] at hp'n
      exact absurd hp'n hcn

/-- Witness for C9: in `W4` the other player has already finished, so when the
current player plays their last card the turn loops back to them and the game
finishes. -/
theorem play_finish_iff_loopback_witness :
    ((W4.play_card "A" ⟨CardColor.red, CardSymbol.value 5⟩ none).1.status
        = GameStatus.finished ↔
      ∃ p, (W4.play_card "A" ⟨CardColor.red, CardSymbol.value 5⟩ none).1.get_current_player
          = some p ∧ p.name = "A") :=
  play_finish_iff_loopback W4 "A" ⟨CardColor.red, CardSymbol.value 5⟩ none
    (by rfl) (by rfl)

theorem playedCardOf_symbol (c : Card) (mc : Option CardColor) :
    (playedCardOf c mc).symbol = c.symbol := by
  unfold playedCardOf Card.morph_black_card
  by_cases hb : c.should_be_black
  · rw [if_pos hb]
    cases mc with
    | none => rfl
    | some col =>
      dsimp only
      by_cases hcol : c.color = CardColor.black
      · rw [if_pos hcol]
        rfl
      · rw [if_neg hcol]
        rfl
  · rw [if_neg hb]

theorem handle_reverse (gg : Game) (cd : Card) (hs : cd.symbol = CardSymbol.reverse) :
    gg.handle_played_card cd
      = { gg with is_clockwise := !gg.is_clockwise, active_cards := { cards := [] } } := by
  unfold Game.handle_played_card
  rw [hs]
  rfl

theorem stepIdx_two (cw : Bool) (c0 : Nat) (hc : c0 < 2) : stepIdx 2 cw c0 = 1 - c0 := by
  cases cw with
  | true =>
    rw [stepIdx_true]
    omega
  | false =>
    rw [stepIdx_false]
    by_cases h0 : c0 = 0
    · rw [if_pos h0]
      omega
    · rw [if_neg h0]
      omega

theorem nodup_name_idx (l : List Player) (hn : (l.map Player.name).Nodup)
    (i j : Nat) (p q : Player) (hp : l.get? i = some p) (hq : l.get? j = some q)
    (hname : p.name = q.name) : i = j := by
  have hi := get?_some_lt l i p hp
  have h1 : (l.map Player.name).get? i = some p.name := by
    rw [List.get?_map, hp]
    rfl
  have h2 : (l.map Player.name).get? j = some q.name := by
    rw [List.get?_map, hq]
    rfl
  exact List.get?_inj (by simpa using hi) hn (by rw [h1, hname, h2])

/-- **C3 (amended).** In a Running two-player game with distinct player names and
both players unfinished, a successful Reverse play flips `is_clockwise` but passes
the turn to the *other* seat (`1 - current`), not back to the player who played:
with two players, stepping one seat in either direction reaches the other seat. -/
theorem two_player_reverse_other (g : Game) (n : String) (c : Card)
    (mc : Option CardColor)
    (h2 : g.players.length = 2)
    (hnames : (g.players.map Player.name).Nodup)
    (hfin : ∀ p ∈ g.players, p.is_finished = false)
    (hrev : c.symbol = CardSymbol.reverse)
    (h : (g.play_card n c mc).2 = none) :
    (g.play_card n c mc).1.is_clockwise = !g.is_clockwise ∧
    (g.play_card n c mc).1.current_player = 1 - g.current_player ∧
    (g.play_card n c mc).1.current_player ≠ g.current_player := by
  obtain ⟨p, hget, hpn, hmem, ⟨q, hq, hqn⟩, hcan, heq⟩ := play_card_ok_full g n c mc h
  have hieq : g.playerIdx n = g.current_player :=
    nodup_name_idx g.players hnames _ _ p q hget hq (by rw [hpn, hqn])
  have hc0 : g.current_player < 2 := by
    have := get?_some_lt _ _ _ hq
    omega
  rw [heq]
  have hAP : g.afterPlay n c mc p
      = ((({ g with
          players := modifyAt g.players (g.playerIdx n) (fun _ =>
            { p with
              cards := p.cards.erase c
              position := if (p.cards.erase c).isEmpty
                then some g.get_finished_players.length else p.position })
          is_clockwise := !g.is_clockwise
          active_cards := { cards := [] }
          deck := g.deck.play (playedCardOf c mc) } : Game).end_turn).1).play_card_messages
            n := by
    simp only [Game.afterPlay]
    rw [handle_reverse _ _ (by rw [playedCardOf_symbol, hrev])]
  rw [hAP]
  set g3 : Game := { g with
    players := modifyAt g.players (g.playerIdx n) (fun _ =>
      { p with
        cards := p.cards.erase c
        position := if (p.cards.erase c).isEmpty
          then some g.get_finished_players.length else p.position })
    is_clockwise := !g.is_clockwise
    active_cards := { cards := [] }
    deck := g.deck.play (playedCardOf c mc) } with hg3
  have hg3len : g3.players.length = 2 := by
    rw [hg3]
    show (modifyAt g.players (g.playerIdx n) _).length = 2
    rw [modifyAt_length, h2]
  obtain ⟨q2, hq2⟩ : ∃ q2, g.players.get? (1 - g.current_player) = some q2 := by
    have hlt : 1 - g.current_player < g.players.length := by omega
    exact ⟨_, List.get?_eq_get hlt⟩
  have hq2f : q2.is_finished = false := hfin q2 (List.get?_mem hq2)
  have hne : 1 - g.current_player ≠ g.playerIdx n := by
    rw [hieq]
    omega
  have hq2' : g3.players.get? (1 - g.current_player) = some q2 := by
    rw [hg3]
    show (modifyAt g.players (g.playerIdx n) _).get? (1 - g.current_player) = some q2
    rw [get?_modifyAt_ne _ _ _ _ hne]
    exact hq2
  have hnotall : ¬(g3.get_finished_players.length = g3.players.length) := by
    unfold Game.get_finished_players
    have hlt : (g3.players.filter (fun p => p.is_finished)).length < g3.players.length :=
      List.length_filter_lt_length_iff_exists.mpr
        ⟨q2, List.get?_mem hq2', by simp [hq2f]⟩
    omega
  have hg3cur : g3.current_player = g.current_player := by rw [hg3]
  have hstep : stepIdx g3.players.length g3.is_clockwise g3.current_player
      = 1 - g.current_player := by
    rw [hg3len, hg3cur, stepIdx_two _ _ hc0]
  have hcurnext : (g3.next_turn).get_current_player = some q2 := by
    show g3.players.get? (stepIdx g3.players.length g3.is_clockwise g3.current_player)
      = some q2
    rw [hstep]
    exact hq2'
  have haux : g3.endTurnAux g3.players.length = g3.next_turn := by
    rw [hg3len]
    show (let g' := g3.next_turn;
      match g'.get_current_player with
      | some p => if p.is_finished then Game.endTurnAux g' 1 else g'
      | none => Game.endTurnAux g' 1) = g3.next_turn
    simp only [hcurnext, hq2f, Bool.false_eq_true, if_false]
  have hend : (g3.end_turn).1 = g3.next_turn := by
    unfold Game.end_turn
    rw [if_neg hnotall, haux]
  rw [hend]
  obtain ⟨s, hmsg⟩ := play_card_messages_eq_set (g3.next_turn) n
  rw [hmsg]
  refine ⟨?_, ?_, ?_⟩
  · show g3.is_clockwise = !g.is_clockwise
    rw [hg3]
  · show stepIdx g3.players.length g3.is_clockwise g3.current_player
      = 1 - g.current_player
    exact hstep
  · show stepIdx g3.players.length g3.is_clockwise g3.current_player ≠ g.current_player
    rw [hstep]
    omega

/-- Witness for C3 (amended): in `G3` the Reverse play flips the direction and moves
the turn to seat 1. -/
theorem two_player_reverse_other_witness :
    (G3.play_card "A" ⟨CardColor.red, CardSymbol.reverse⟩ none).1.is_clockwise
        = !G3.is_clockwise ∧
    (G3.play_card "A" ⟨CardColor.red, CardSymbol.reverse⟩ none).1.current_player
        = 1 - G3.current_player ∧
    (G3.play_card "A" ⟨CardColor.red, CardSymbol.reverse⟩ none).1.current_player
        ≠ G3.current_player :=
  two_player_reverse_other G3 "A" ⟨CardColor.red, CardSymbol.reverse⟩ none
    (by rfl) (by decide) (by decide) (by rfl) (by rfl)

/-- Counterexample for C3 as stated: in the concrete two-player game `G3` (both
players unfinished, game Running), `A` successfully plays a red Reverse; the
direction flips but the current player moves to seat 1 (`B`) instead of returning
to the player who played. -/
theorem two_player_reverse_counterexample :
    G3.players.length = 2 ∧ G3.status = GameStatus.running ∧
    (G3.players.all (fun p => p.is_finished = false)) = true ∧
    (G3.get_current_player.map Player.name) = some "A" ∧
    (G3.play_card "A" ⟨CardColor.red, CardSymbol.reverse⟩ none).2 = none ∧
    (G3.play_card "A" ⟨CardColor.red, CardSymbol.reverse⟩ none).1.is_clockwise
      = !G3.is_clockwise ∧
    (G3.play_card "A" ⟨CardColor.red, CardSymbol.reverse⟩ none).1.current_player = 1 ∧
    G3.current_player = 0 :=
  ⟨by rfl, by rfl, by rfl, by rfl, by rfl, by rfl, by rfl, by rfl⟩

theorem sum_lengths_modifyAt (l : List Player) (i : Nat) (p : Player)
    (hp : l.get? i = some p) (f : Player → Player) :
    ((modifyAt l i f).map (fun q => q.cards.length)).sum + p.cards.length
      = (l.map (fun q => q.cards.length)).sum + (f p).cards.length := by
  induction l generalizing i with
  | nil => cases hp
  | cons a as ih =>
    cases i with
    | zero =>
      injection hp with hp
      rw [hp]
      simp [modifyAt]
      omega
    | succ m =>
      have := ih m (by simpa [List.get?] using hp)
      simp only [modifyAt, List.map_cons, List.sum_cons]
      omega

theorem deck_draw_some_count (d : Deck) (c : Card) (d' : Deck)
    (h : d.draw = (some c, d')) :
    d.draw_pile.length + d.discard_pile.length
      = d'.draw_pile.length + d'.discard_pile.length + 1 := by
  have := congrArg Multiset.card (deck_draw_some d c d' h)
  simpa [deckCards] using this

theorem deck_draw_none_count (d : Deck) (d' : Deck) (h : d.draw = (none, d')) :
    d'.draw_pile.length + d'.discard_pile.length
      = d.draw_pile.length + d.discard_pile.length := by
  have := congrArg Multiset.card (deck_draw_none d d' h).1
  simpa [deckCards] using this

theorem deal7_count (k : Nat) : ∀ (d : Deck) (p : Player) (d' : Deck) (p' : Player)
    (b : Bool), deal7 d p k = (d', p', b) →
    d'.draw_pile.length + d'.discard_pile.length + p'.cards.length
      = d.draw_pile.length + d.discard_pile.length + p.cards.length := by
  induction k with
  | zero =>
    intro d p d' p' b h
    injection h with h1 h2
    injection h2 with h2 h3
    rw [← h1, ← h2]
  | succ m ih =>
    intro d p d' p' b h
    cases hd : d.draw with
    | mk c? d2 =>
      cases c? with
      | none =>
        have hh : deal7 d p (m + 1) = (d2, p, false) := by
          simp only [deal7, hd]
        rw [hh] at h
        injection h with h1 h2
        injection h2 with h2 h3
        rw [← h1, ← h2]
        have := deck_draw_none_count d d2 hd
        omega
      | some c =>
        have hh : deal7 d p (m + 1) = deal7 d2 (p.give_card c) m := by
          simp only [deal7, hd]
        rw [hh] at h
        have hrec := ih d2 (p.give_card c) d' p' b h
        have hcnt := deck_draw_some_count d c d2 hd
        have hgc : (p.give_card c).cards.length = p.cards.length + 1 := by
          simp [Player.give_card]
        omega

theorem dealLoop_count_ok : ∀ (ps : List Player) (d : Deck) (d' : Deck)
    (ps' : List Player), dealLoop d ps = (d', ps', true) →
    d'.draw_pile.length + d'.discard_pile.length
        + ((ps'.map (fun q => q.cards.length)).sum)
      = d.draw_pile.length + d.discard_pile.length := by
  intro ps
  induction ps with
  | nil =>
    intro d d' ps' h
    injection h with h1 h2
    injection h2 with h2 h3
    rw [← h1, ← h2]
    simp
  | cons p rest ih =>
    intro d d' ps' h
    cases h7 : deal7 d p.drop_all_cards CARDS_DEALT_TO_PLAYERS with
    | mk d1 pb =>
      cases pb with
      | mk p1 ok1 =>
        cases ok1 with
        | false =>
          have hh : dealLoop d (p :: rest) = (d1, p1 :: rest, false) := by
            simp only [dealLoop, h7]
          rw [hh] at h
          injection h with h1 h2
          injection h2 with h2 h3
          cases h3
        | true =>
          have hstep : dealLoop d (p :: rest)
              = ((dealLoop d1 rest).1, p1 :: (dealLoop d1 rest).2.1,
                  (dealLoop d1 rest).2.2) := by
            simp only [dealLoop, h7]
          rw [hstep] at h
          injection h with h1 h2
          injection h2 with h2 h3
          have hrec := ih d1 (dealLoop d1 rest).1 (dealLoop d1 rest).2.1 (by rw [← h3])
          have h7c := deal7_count CARDS_DEALT_TO_PLAYERS d p.drop_all_cards d1 p1 true h7
          have hdrop : (p.drop_all_cards).cards.length = 0 := rfl
          rw [← h1, ← h2]
          simp only [List.map_cons, List.sum_cons]
          omega

theorem deckNew_count (order : List Card) :
    (Deck.new order).draw_pile.length + (Deck.new order).discard_pile.length
      = order.length := by
  cases order with
  | nil => rfl
  | cons c rest => simp [Deck.new]

theorem totalCards_start_ok (g : Game) (order : List Card) (k : Nat) (g' : Game)
    (h : g.start order k = (g', none)) : totalCards g' = order.length := by
  unfold Game.start Game.deal_starting_cards at h
  by_cases hst : g.status = GameStatus.running
  · rw [if_pos hst] at h
    injection h with h1 h2
    cases h2
  · rw [if_neg hst] at h
    dsimp only at h
    cases hdl : dealLoop (Deck.new order) (g.players.map Player.clear_position) with
    | mk d1 pr =>
      cases pr with
      | mk ps1 ok1 =>
        rw [hdl] at h
        dsimp only at h
        cases ok1 with
        | false =>
          simp only [Bool.false_eq_true, if_false] at h
          injection h with h1 h2
          cases h2
        | true =>
          simp only [if_true] at h
          injection h with h1 h2
          rw [← h1]
          have := dealLoop_count_ok (g.players.map Player.clear_position)
            (Deck.new order) d1 ps1 hdl
          have hnew := deckNew_count order
          unfold totalCards
          dsimp only
          omega

theorem totalCards_play_card (g : Game) (n : String) (c : Card)
    (mc : Option CardColor) : totalCards (g.play_card n c mc).1 = totalCards g := by
  cases hres : (g.play_card n c mc).2 with
  | some e => rw [play_card_err_unchanged g n c mc e hres]
  | none =>
    obtain ⟨p, hget, hpn, hmem, hqex, hcan, heq⟩ := play_card_ok_full g n c mc hres
    rw [heq]
    obtain ⟨g3, hap, hpl, hcur, hstat, hdeck⟩ := afterPlay_fields g n c mc p
    rw [hap]
    obtain ⟨s, hmsg⟩ := play_card_messages_eq_set ((g3.end_turn).1) n
    obtain ⟨ce, hce⟩ := end_turn_eq_set g3
    rw [hmsg]
    have h1 : totalCards ({ (g3.end_turn).1 with status := s } : Game)
        = totalCards (g3.end_turn).1 := rfl
    have h2 : totalCards ({ g3 with current_player := ce } : Game) = totalCards g3 := rfl
    rw [h1, hce, h2]
    unfold totalCards
    rw [hdeck, hpl]
    have hsum := sum_lengths_modifyAt g.players (g.playerIdx n) p hget (fun _ =>
      { p with
        cards := p.cards.erase c
        position := if (p.cards.erase c).isEmpty
          then some g.get_finished_players.length else p.position })
    have herase : (p.cards.erase c).length = p.cards.length - 1 :=
      List.length_erase_of_mem hmem
    have hpos : 0 < p.cards.length := List.length_pos_of_mem hmem
    dsimp only at hsum ⊢
    simp only [Deck.play]
    simp only [List.length_cons]
    omega

theorem totalCards_draw_cards (g : Game) (n : String) :
    totalCards (g.draw_cards n).1 = totalCards g := by
  cases hres : (g.draw_cards n).2 with
  | error e => rw [draw_cards_err_unchanged g n e hres]
  | ok cs =>
    have hdc : g.draw_cards n = ((g.draw_cards n).1, Except.ok cs) := by
      rw [← hres]
    obtain ⟨hok, hg', hcs⟩ := draw_cards_ok_elim g n (g.draw_cards n).1 cs hdc
    obtain ⟨pw, qw, hf, hq, _, _, _, _⟩ := can_player_draw_ok_elim g n hok
    have hgetp := (find_player_get? g n pw hf).1
    obtain ⟨k, gmid, hA, hB, hpl, hcons, hlen, hcurm, hstatm, hgend⟩ :=
      draw_cards_spec g n (g.draw_cards n).1 cs hdc
    rw [hgend]
    obtain ⟨ce, hce⟩ := end_turn_eq_set gmid
    rw [hce]
    have h2 : totalCards ({ gmid with current_player := ce } : Game)
        = totalCards gmid := rfl
    rw [h2]
    unfold totalCards
    rw [hpl]
    have hsum := sum_lengths_modifyAt g.players (g.playerIdx n) pw hgetp (fun p =>
      { p with cards := p.cards ++ cs })
    have hdcnt := congrArg Multiset.card hcons
    simp only [deckCards, Multiset.card_add, Multiset.coe_card] at hdcnt
    dsimp only at hsum ⊢
    simp only [List.length_append] at hsum
    omega

/-- **C6 (amended).** The total number of cards across the draw pile, the discard
pile and every hand is 108 after a successful start and is conserved by every
`play_card` and `draw_cards` call. (The exact multiset is not conserved: playing a
Black-family card with a chosen color replaces the Black card by its recolored
morph — see the counterexample.) -/
theorem total_card_count_conserved :
    fullCardList.length = CARDS_TOTAL_IN_GAME ∧
    (∀ (g : Game) (order : List Card) (k : Nat) (g' : Game),
      order.length = CARDS_TOTAL_IN_GAME → g.start order k = (g', none) →
      totalCards g' = CARDS_TOTAL_IN_GAME) ∧
    (∀ (g : Game) (n : String) (c : Card) (mc : Option CardColor),
      totalCards (g.play_card n c mc).1 = totalCards g) ∧
    (∀ (g : Game) (n : String), totalCards (g.draw_cards n).1 = totalCards g) :=
  ⟨by rfl,
    fun g order k g' hlen h => by rw [totalCards_start_ok g order k g' h, hlen],
    totalCards_play_card,
    totalCards_draw_cards⟩

/-- Witness for C6 (amended): starting the two-player game with the full deck leaves
exactly 108 cards in play. -/
theorem total_card_count_conserved_witness :
    totalCards (G2.start fullCardList 0).1 = CARDS_TOTAL_IN_GAME :=
  total_card_count_conserved.2.1 G2 fullCardList 0 (G2.start fullCardList 0).1
    (by rfl) (by rfl)

/-- Counterexample for C6 as stated: after the reachable start of `G6` the multiset
of cards in play equals the full card set, but playing the black Wild with a chosen
replacement color recolors it, so the multiset union is NOT constant (the count is —
see the amended theorem). -/
theorem game_multiset_not_conserved :
    (↑myOrder : Multiset Card) = (↑fullCardList : Multiset Card) ∧
    (G2.start myOrder 0).2 = none ∧
    gameCards G6 = (↑fullCardList : Multiset Card) ∧
    (G6.play_card "A" ⟨CardColor.black, CardSymbol.wild⟩ (some CardColor.red)).2
      = none ∧
    gameCards (G6.play_card "A" ⟨CardColor.black, CardSymbol.wild⟩
        (some CardColor.red)).1
      ≠ gameCards G6 := by
  refine ⟨by decide, by rfl, by decide, by rfl, ?_⟩
  intro hcontra
  have hcount := congrArg (Multiset.count (⟨CardColor.black, CardSymbol.wild⟩ : Card))
    hcontra
  rw [show Multiset.count (⟨CardColor.black, CardSymbol.wild⟩ : Card)
      (gameCards (G6.play_card "A" ⟨CardColor.black, CardSymbol.wild⟩
        (some CardColor.red)).1) = 3 from by decide,
    show Multiset.count (⟨CardColor.black, CardSymbol.wild⟩ : Card) (gameCards G6) = 4
      from by decide] at hcount
  cases hcount

theorem modifyAt_perm (l : List α) (i : Nat) (a : α) (f : α → α)
    (h : l.get? i = some a) : (modifyAt l i f).Perm (f a :: l.eraseIdx i) := by
  induction l generalizing i with
  | nil => cases h
  | cons b bs ih =>
    cases i with
    | zero =>
      injection h with h
      rw [h]
      exact List.Perm.refl _
    | succ m =>
      have hbs : bs.get? m = some a := by simpa using h
      show (b :: modifyAt bs m f).Perm (f a :: b :: bs.eraseIdx m)
      exact ((ih m hbs).cons b).trans (List.Perm.swap _ _ _)

theorem self_perm_cons (l : List α) (i : Nat) (a : α) (h : l.get? i = some a) :
    l.Perm (a :: l.eraseIdx i) := by
  induction l generalizing i with
  | nil => cases h
  | cons b bs ih =>
    cases i with
    | zero =>
      injection h with h
      rw [h]
      exact List.Perm.refl _
    | succ m =>
      have hbs : bs.get? m = some a := by simpa using h
      show (b :: bs).Perm (a :: b :: bs.eraseIdx m)
      exact ((ih m hbs).cons b).trans (List.Perm.swap _ _ _)

theorem play_card_ok_players (g : Game) (n : String) (c : Card) (mc : Option CardColor)
    (p : Player) (heq : (g.play_card n c mc).1 = g.afterPlay n c mc p) :
    (g.play_card n c mc).1.players = modifyAt g.players (g.playerIdx n) (fun _ =>
      { p with
        cards := p.cards.erase c
        position := if (p.cards.erase c).isEmpty
          then some g.get_finished_players.length else p.position }) := by
  rw [heq]
  obtain ⟨g3, hap, hpl, hcur, hstat, hdeck⟩ := afterPlay_fields g n c mc p
  rw [hap]
  obtain ⟨s, hmsg⟩ := play_card_messages_eq_set ((g3.end_turn).1) n
  rw [hmsg]
  show ((g3.end_turn).1).players = _
  obtain ⟨ce, hce⟩ := end_turn_eq_set g3
  rw [hce]
  exact hpl

theorem draw_cards_positions (g : Game) (n : String) (i : Nat) :
    (((g.draw_cards n).1.players.get? i).map Player.position)
      = ((g.players.get? i).map Player.position) := by
  cases hres : (g.draw_cards n).2 with
  | error e => rw [draw_cards_err_unchanged g n e hres]
  | ok cs =>
    have hdc : g.draw_cards n = ((g.draw_cards n).1, Except.ok cs) := by
      rw [← hres]
    obtain ⟨k, gmid, hA, hB, hpl, hcons, hlen, hcurm, hstatm, hgend⟩ :=
      draw_cards_spec g n (g.draw_cards n).1 cs hdc
    rw [hgend]
    obtain ⟨ce, hce⟩ := end_turn_eq_set gmid
    rw [hce]
    show (gmid.players.get? i).map Player.position = _
    rw [hpl]
    by_cases hi : i = g.playerIdx n
    · subst hi
      rw [get?_modifyAt_self]
      cases hgo : g.players.get? (g.playerIdx n) with
      | none => rfl
      | some q => rfl
    · rw [get?_modifyAt_ne _ _ _ _ hi]

theorem play_card_pos_spec (g : Game) (n : String) (c : Card) (mc : Option CardColor)
    (hInv : PosInv g) (h : (g.play_card n c mc).2 = none) :
    PosInv (g.play_card n c mc).1 ∧
    (∀ i q v, g.players.get? i = some q → q.position = some v →
      (((g.play_card n c mc).1.players.get? i).map Player.position) = some (some v)
        ∧ v < g.get_finished_players.length) ∧
    (∀ q, (g.play_card n c mc).1.players.get? (g.playerIdx n) = some q →
      q.is_finished = true → q.position = some g.get_finished_players.length) := by
  obtain ⟨p, hget, hpn, hmem, hqex, hcan, heq⟩ := play_card_ok_full g n c mc h
  have hplayers := play_card_ok_players g n c mc p heq
  have hpne : p.cards ≠ [] := List.ne_nil_of_mem hmem
  have hpfin : p.is_finished = false := by
    unfold Player.is_finished
    cases hpc : p.cards with
    | nil => exact absurd hpc hpne
    | cons x xs => rfl
  have hppos : p.position = none := by
    have hx := hInv.2 p (List.get?_mem hget)
    rw [hpfin] at hx
    cases hpp : p.position with
    | none => rfl
    | some v => rw [hpp] at hx; cases hx
  have hpermM : ((g.play_card n c mc).1.players).Perm
      ({ p with
        cards := p.cards.erase c
        position := if (p.cards.erase c).isEmpty
          then some g.get_finished_players.length else p.position }
        :: g.players.eraseIdx (g.playerIdx n)) := by
    rw [hplayers]
    exact modifyAt_perm _ _ _ _ hget
  have hpermL : g.players.Perm (p :: g.players.eraseIdx (g.playerIdx n)) :=
    self_perm_cons _ _ _ hget
  have hcnt_old : g.get_finished_players.length
      = ((g.players.eraseIdx (g.playerIdx n)).filter (fun q => q.is_finished)).length := by
    unfold Game.get_finished_players
    rw [(hpermL.filter _).length_eq, List.filter_cons, hpfin]
    simp
  have hpos_old : (↑(g.players.filterMap Player.position) : Multiset Nat)
      = ↑((g.players.eraseIdx (g.playerIdx n)).filterMap Player.position) := by
    rw [Multiset.coe_eq_coe.mpr (hpermL.filterMap Player.position),
      List.filterMap_cons_none hppos]
  have hpos_rest : (↑((g.players.eraseIdx (g.playerIdx n)).filterMap Player.position)
      : Multiset Nat) = Multiset.range g.get_finished_players.length := by
    rw [← hpos_old]
    exact hInv.1
  refine ⟨⟨?_, ?_⟩, ?_, ?_⟩
  · -- positions multiset of the post-state
    by_cases hemp : (p.cards.erase c).isEmpty
    · have hcnt_new : (g.play_card n c mc).1.get_finished_players.length
          = g.get_finished_players.length + 1 := by
        show (((g.play_card n c mc).1.players).filter (fun q => q.is_finished)).length
          = _
        rw [(hpermM.filter _).length_eq, List.filter_cons]
        have : (({ p with
            cards := p.cards.erase c
            position := if (p.cards.erase c).isEmpty
              then some g.get_finished_players.length else p.position }
            : Player).is_finished) = true := hemp
        rw [this, hcnt_old]
        simp
      rw [hcnt_new]
      rw [Multiset.coe_eq_coe.mpr (hpermM.filterMap Player.position)]
      have hnewpos : ({ p with
          cards := p.cards.erase c
          position := if (p.cards.erase c).isEmpty
            then some g.get_finished_players.length else p.position }
          : Player).position = some g.get_finished_players.length := by
        show (if (p.cards.erase c).isEmpty
          then some g.get_finished_players.length else p.position)
            = some g.get_finished_players.length
        rw [if_pos hemp]
      rw [List.filterMap_cons_some hnewpos, ← Multiset.cons_coe, hpos_rest,
        Multiset.range_succ]
    · have hembool : (p.cards.erase c).isEmpty = false := by
        simpa using hemp
      have hcnt_new : (g.play_card n c mc).1.get_finished_players.length
          = g.get_finished_players.length := by
        show (((g.play_card n c mc).1.players).filter (fun q => q.is_finished)).length
          = _
        rw [(hpermM.filter _).length_eq, List.filter_cons]
        have : (({ p with
            cards := p.cards.erase c
            position := if (p.cards.erase c).isEmpty
              then some g.get_finished_players.length else p.position }
            : Player).is_finished) = false := hembool
        rw [this, hcnt_old]
        simp
      rw [hcnt_new]
      rw [Multiset.coe_eq_coe.mpr (hpermM.filterMap Player.position)]
      have hnewpos : ({ p with
          cards := p.cards.erase c
          position := if (p.cards.erase c).isEmpty
            then some g.get_finished_players.length else p.position }
          : Player).position = none := by
        show (if (p.cards.erase c).isEmpty
          then some g.get_finished_players.length else p.position) = none
        rw [if_neg (by simp [hembool]), hppos]
      rw [List.filterMap_cons_none hnewpos, hpos_rest]
  · -- the isSome-iff-finished component
    intro q hq
    rcases List.mem_cons.mp ((hpermM.mem_iff).mp hq) with hq' | hq'
    · rw [hq']
      by_cases hemp : (p.cards.erase c).isEmpty
      · show (if (p.cards.erase c).isEmpty
            then some g.get_finished_players.length else p.position).isSome
          = (p.cards.erase c).isEmpty
        rw [if_pos hemp, hemp]
        rfl
      · have hembool : (p.cards.erase c).isEmpty = false := by simpa using hemp
        show (if (p.cards.erase c).isEmpty
            then some g.get_finished_players.length else p.position).isSome
          = (p.cards.erase c).isEmpty
        rw [if_neg (by simp [hembool]), hppos, hembool]
        rfl
    · exact hInv.2 q ((List.eraseIdx_sublist _ _).subset hq')
  · -- existing ranks survive and are strictly below the count
    intro i q v hgi hqv
    by_cases hii : i = g.playerIdx n
    · subst hii
      rw [hget] at hgi
      injection hgi with hgi
      rw [← hgi] at hqv
      rw [hppos] at hqv
      cases hqv
    · constructor
      · rw [hplayers, get?_modifyAt_ne _ _ _ _ hii, hgi, Option.map_some', hqv]
      · have hvmem : v ∈ g.players.filterMap Player.position :=
          List.mem_filterMap.mpr ⟨q, List.get?_mem hgi, hqv⟩
        have hvms : (v : Nat) ∈ (↑(g.players.filterMap Player.position) : Multiset Nat) := by
          simpa using hvmem
        rw [hInv.1] at hvms
        simpa [Multiset.mem_range] using hvms
  · -- the newly finished player gets exactly the old finished count
    intro q hq hqfin
    rw [hplayers, get?_modifyAt_self, hget, Option.map_some'] at hq
    injection hq with hq
    rw [← hq] at hqfin ⊢
    by_cases hemp : (p.cards.erase c).isEmpty
    · show (if (p.cards.erase c).isEmpty
        then some g.get_finished_players.length else p.position)
          = some g.get_finished_players.length
      rw [if_pos hemp]
    · have hembool : (p.cards.erase c).isEmpty = false := by simpa using hemp
      have : (({ p with
          cards := p.cards.erase c
          position := if (p.cards.erase c).isEmpty
            then some g.get_finished_players.length else p.position }
          : Player).is_finished) = false := hembool
      rw [this] at hqfin
      cases hqfin

theorem start_pos_inv (g : Game) (order : List Card) (k : Nat) (g' : Game)
    (h : g.start order k = (g', none)) : PosInv g' := by
  obtain ⟨hst, hcur, hlen, hall⟩ := start_ok_elim g order k g' h
  have hnofin : ∀ q ∈ g'.players, q.is_finished = false := by
    intro q hq
    obtain ⟨hlq, _⟩ := hall q hq
    unfold Player.is_finished
    cases hqc : q.cards with
    | nil => rw [hqc] at hlq; cases hlq
    | cons x xs => rfl
  constructor
  · have hfm : g'.players.filterMap Player.position = [] :=
      List.filterMap_eq_nil.mpr (fun q hq => (hall q hq).2)
    have hcnt0 : g'.get_finished_players.length = 0 := by
      unfold Game.get_finished_players
      rw [List.length_eq_zero]
      rw [List.filter_eq_nil]
      intro q hq
      rw [hnofin q hq]
      exact Bool.false_ne_true
    rw [hfm, hcnt0]
    rfl
  · intro q hq
    rw [(hall q hq).2, hnofin q hq]
    rfl

/-- **C8.** A successful `play_card` that empties the acting player's hand assigns
that player's position to the number of already-finished players (0-based; first
finisher gets 0); under the reachability invariant `PosInv` (established by every
successful start), assigned positions are exactly `0, …, k-1`, every previously
assigned position survives unchanged and is strictly smaller than the newly
assigned one, and `draw_cards` never changes any position. -/
theorem finish_position_spec :
    (∀ (g : Game) (order : List Card) (k : Nat) (g' : Game),
      g.start order k = (g', none) → PosInv g') ∧
    (∀ (g : Game) (n : String) (c : Card) (mc : Option CardColor),
      PosInv g → (g.play_card n c mc).2 = none →
      PosInv (g.play_card n c mc).1 ∧
      (∀ i q v, g.players.get? i = some q → q.position = some v →
        (((g.play_card n c mc).1.players.get? i).map Player.position) = some (some v)
          ∧ v < g.get_finished_players.length) ∧
      (∀ q, (g.play_card n c mc).1.players.get? (g.playerIdx n) = some q →
        q.is_finished = true → q.position = some g.get_finished_players.length)) ∧
    (∀ (g : Game) (n : String) (i : Nat),
      (((g.draw_cards n).1.players.get? i).map Player.position)
        = ((g.players.get? i).map Player.position)) :=
  ⟨start_pos_inv, play_card_pos_spec, draw_cards_positions⟩

/-- Witness for C8: in `W3` the current player plays their only card; afterwards the
rank bookkeeping invariant still holds and the finisher received rank 0. -/
theorem finish_position_spec_witness :
    PosInv (W3.play_card "A" ⟨CardColor.red, CardSymbol.value 5⟩ none).1 :=
  (finish_position_spec.2.1 W3 "A" ⟨CardColor.red, CardSymbol.value 5⟩ none
    (by constructor <;> decide) (by rfl)).1

end RustUno
